import Mathlib

/-!
# OscController (BespokeSynth): a verification development

Shallow embedding of `Source/OscController.cpp`.

Conventions of the embedding

* `std::vector<OscMap> mOscMap` is a `List OscMap`; `int` is `Int` (registry sizes are
  far below `2^31`, so `(int)mOscMap.size()` is the length itself).
* A `float` is a finite IEEE-754 binary32 value, kept as its integer multiple of `2^-149`
  (the smallest positive subnormal), see `Float32`.  Products are rounded to the nearest
  binary32 value, ties to even, as the hardware does.  Infinities and NaN are outside the
  model.
* The OSC library is external.  `msg[i]` outside the argument list, a typed getter applied to
  an argument of another type, and a failing `assert` are reported as a `Fault`, after which
  the handler stops.
* What the controller hands to its listener (`OnMidiNote`, `OnMidiControl`, the layout-control
  setup) and to its OSC sender is returned as a list, in call order.
-/

namespace Bespoke

/-! ## Floating point -/

/-- A finite binary32 value, stored as the integer `units` with value `units × 2^-149`.
Every finite `float` is such a multiple, so comparisons are integer comparisons. -/
structure Float32 where
  units : Int
deriving DecidableEq, Repr

/-- A finite binary64 value (`double`), stored as its integer multiple of `2^-1074`.
The controller only stores and copies timestamps, it never computes with them. -/
structure Float64 where
  units : Int
deriving DecidableEq, Repr

/-- Number of binary digits of `a` (0 for 0); the first argument bounds the recursion and is
always passed as `a` itself, which is never smaller than the number of digits. -/
def Float32.bitLength : Nat → Nat → Nat
  | 0, _ => 0
  | fuel + 1, a => if a = 0 then 0 else Float32.bitLength fuel (a / 2) + 1

/-- Round an exact value of `k × 2^-149` to the nearest binary32 value (24 significant bits),
ties to even.  Values below `2^24` units (subnormals and the first normal binade) are exact. -/
def Float32.roundUnits (k : Int) : Int :=
  let a := k.natAbs
  let l := Float32.bitLength a a
  if l ≤ 24 then k
  else
    let q := 2 ^ (l - 24)
    let m := a / q
    let r := a % q
    let m1 := if q < 2 * r ∨ (2 * r = q ∧ m % 2 = 1) then m + 1 else m
    if k < 0 then -((m1 * q : Nat) : Int) else ((m1 * q : Nat) : Int)

/-- The float with the value of the integer `n` (the conversion `int → float`). -/
def Float32.ofInt (n : Int) : Float32 :=
  ⟨Float32.roundUnits (n * ((2 ^ 149 : Nat) : Int))⟩

/-- The float `m / 2^e` for `e ≤ 149` (exact when `m` has at most 24 significant bits). -/
def Float32.ofDyadic (m : Int) (e : Nat) : Float32 :=
  ⟨Float32.roundUnits (m * ((2 ^ (149 - e) : Nat) : Int))⟩

/-- The C++ expression `x * n` for a `float x` and an `int n` with `|n| < 2^24`: `n` converts
to `float` exactly and the binary32 product is the rounded exact product.  A product whose
magnitude reaches `2^128` overflows to infinity in binary32; the model has no infinity, so the
result is the product only when it satisfies `Float32.isBinary32`. -/
def Float32.mulInt (x : Float32) (n : Int) : Float32 :=
  ⟨Float32.roundUnits (x.units * n)⟩

/-- The C++ comparison `x < y` on floats. -/
def Float32.lt (x y : Float32) : Bool :=
  decide (x.units < y.units)

/-- The implicit conversion `float → int`: truncation toward zero.  Outside the range of
`int` the C++ conversion is undefined; the model keeps the mathematical truncation there, so
the result is the converted value only under `Float32.fitsInt`. -/
def Float32.toInt (x : Float32) : Int :=
  Int.tdiv x.units ((2 ^ 149 : Nat) : Int)

/-- Whether the truncation of `x` fits the 32-bit type `int`.  Only then is the conversion
`float → int` defined in C++, and only then is `Float32.toInt` its value. -/
def Float32.fitsInt (x : Float32) : Bool :=
  decide (-2147483648 ≤ x.toInt) && decide (x.toInt ≤ 2147483647)

/-- The real (rational) value of a float. -/
def Float32.toRat (x : Float32) : ℚ :=
  (x.units : ℚ) / 2 ^ 149

/-- Whether the stored multiple is a genuine finite binary32 value: it has at most 24
significant bits and its magnitude is below `2^128`. -/
def Float32.isBinary32 (x : Float32) : Bool :=
  Float32.roundUnits x.units == x.units &&
    decide (Float32.bitLength x.units.natAbs x.units.natAbs ≤ 277)

/-! ## OSC messages (JUCE `OSCMessage`, `OSCArgument`) -/

/-- What can go wrong inside the handler. -/
inductive Fault
  /-- The read `msg[i]` with `i ≥ msg.size()`. -/
  | argIndexOutOfRange (i : Nat)
  /-- The read `mOscMap[i]` with `i` outside the vector. -/
  | mapIndexOutOfRange (i : Int)
  /-- The call `getInt32`, `getFloat32` or `getString` on an argument of another type. -/
  | wrongArgType
  /-- A failing `assert(...)`. -/
  | assertFailed
deriving DecidableEq, Repr

/-- One typed OSC argument. -/
inductive OSCArgument
  | int32 (n : Int)
  | float32 (x : Float32)
  | string (s : String)
  | blob
deriving DecidableEq, Repr

/-- The test `isFloat32()`. -/
def OSCArgument.isFloat32 : OSCArgument → Bool
  | .float32 _ => true
  | _ => false

/-- The test `isInt32()`. -/
def OSCArgument.isInt32 : OSCArgument → Bool
  | .int32 _ => true
  | _ => false

/-- The getter `getFloat32()`. -/
def OSCArgument.getFloat32 : OSCArgument → Except Fault Float32
  | .float32 x => .ok x
  | _ => .error .wrongArgType

/-- The getter `getInt32()`. -/
def OSCArgument.getInt32 : OSCArgument → Except Fault Int
  | .int32 n => .ok n
  | _ => .error .wrongArgType

/-- The getter `getString()`. -/
def OSCArgument.getString : OSCArgument → Except Fault String
  | .string s => .ok s
  | _ => .error .wrongArgType

/-- An OSC message: address pattern and arguments. -/
structure OSCMessage where
  address : String
  args : List OSCArgument
deriving DecidableEq, Repr

/-- The count `msg.size()`. -/
def OSCMessage.size (msg : OSCMessage) : Nat :=
  msg.args.length

/-- The read `msg[i]`. -/
def OSCMessage.get (msg : OSCMessage) (i : Nat) : Except Fault OSCArgument :=
  match msg.args[i]? with
  | some a => .ok a
  | none => .error (.argIndexOutOfRange i)

/-! ## Events handed to the listener -/

/-- Modelled from the spec: `MidiNote` is declared in a header that is not part of the sources
at hand.  The spec gives NoteEvent as source tag, integer channel, real pitch and integer
velocity, so a float assigned to `mVelocity` is converted by truncation. -/
structure MidiNote where
  mDeviceName : String
  mChannel : Int
  mPitch : Float32
  mVelocity : Int
deriving DecidableEq, Repr

/-- Modelled from the spec: `MidiControl` is declared in a header that is not part of the
sources at hand.  The spec gives ControlChangeEvent as integer control id, source tag, integer
channel and a real value. -/
structure MidiControl where
  mControl : Int
  mDeviceName : String
  mChannel : Int
  mValue : Float32
deriving DecidableEq, Repr

/-- The two connection types the handler assigns to a newly discovered control. -/
inductive ControlType
  | kControlType_Slider
  | kControlType_Direct
deriving DecidableEq, Repr

/-- The listener behind `mListener`: a plain `MidiDeviceListener`, or one for which
`dynamic_cast<MidiController*>` succeeds. -/
inductive Listener
  | plain
  | midiController
deriving DecidableEq, Repr

/-- A call made on the listener. -/
inductive ListenerCall
  | OnMidiNote (note : MidiNote)
  | OnMidiControl (control : MidiControl)
  /-- The assignment `GetLayoutControl(control, kMidiMessage_Control).mConnectionType = t`. -/
  | setLayoutConnectionType (control : Int) (t : ControlType)
deriving DecidableEq, Repr

/-! ## The controller -/

/-- One registry entry (`OscMap`). -/
structure OscMap where
  mControl : Int
  mAddress : String
  mIsFloat : Bool
  mFloatValue : Float32
  mIntValue : Int
  mLastChangedTime : Float64
deriving DecidableEq, Repr

/-- The fields of `OscController` that the modelled functions read or write. -/
structure OscController where
  mListener : Option Listener
  mConnected : Bool
  mOutAddress : String
  mOutPort : Int
  mInPort : Int
  mOutputConnected : Bool
  mOscMap : List OscMap
deriving DecidableEq, Repr

/-- What the functions take from outside the class: the global clock `gTime`, the result of
the OSC sender's `connect(host, port)`, and the default-constructed `OscMap` (its member
initialisers are in a header that is not part of the sources at hand). -/
structure Env where
  gTime : Float64
  connect : String → Int → Bool
  newEntry : OscMap

/-- The message types of `MidiMessageType` (only `kMidiMessage_Control` is singled out). -/
inductive MidiMessageType
  | kMidiMessage_Note
  | kMidiMessage_Control
  | kMidiMessage_Program
  | kMidiMessage_PitchBend
deriving DecidableEq, Repr

/-- The method `ConnectOutput`. -/
def OscController.ConnectOutput (env : Env) (s : OscController) : OscController :=
  if s.mOutAddress ≠ "" ∧ s.mOutPort > 0 then
    { s with mOutputConnected := env.connect s.mOutAddress s.mOutPort }
  else s

/-- The read `mOscMap[i]` for an `int` index. -/
def OscController.mapGet (s : OscController) (i : Int) : Except Fault OscMap :=
  if i < 0 then .error (.mapIndexOutOfRange i)
  else
    match s.mOscMap[i.toNat]? with
    | some e => .ok e
    | none => .error (.mapIndexOutOfRange i)

/-- The method `GetControlTooltip`. -/
def OscController.GetControlTooltip (s : OscController) (type : MidiMessageType)
    (control : Int) : String :=
  if type = .kMidiMessage_Control ∧ control ≥ 0 ∧ control < (s.mOscMap.length : Int) then
    match s.mOscMap[control.toNat]? with
    | some e => e.mAddress
    | none => "[unmapped]"
  else "[unmapped]"

/-- The loop of `FindControl`, scanning from index `i`. -/
def OscController.FindControl.loop (address : String) : List OscMap → Nat → Int
  | [], _ => -1
  | e :: rest, i =>
    if address = e.mAddress then (i : Int)
    else OscController.FindControl.loop address rest (i + 1)

/-- The method `FindControl`. -/
def OscController.FindControl (s : OscController) (address : String) : Int :=
  OscController.FindControl.loop address s.mOscMap 0

/-- The method `AddControl`: the returned index and the controller afterwards. -/
def OscController.AddControl (env : Env) (s : OscController) (address : String)
    (isFloat : Bool) : Int × OscController :=
  let existing := s.FindControl address
  if existing ≠ -1 then (existing, s)
  else
    let mapIndex : Int := (s.mOscMap.length : Int)
    let entry : OscMap :=
      { env.newEntry with mControl := mapIndex, mAddress := address, mIsFloat := isFloat }
    (mapIndex, { s with mOscMap := s.mOscMap ++ [entry] })

/-! ## Sending -/

/-- What `SendValue` did: the controller afterwards, the messages it built, and the messages
it passed to `mOscOut.send`. -/
structure SendResult where
  state : OscController
  built : List OSCMessage
  sent : List OSCMessage
deriving DecidableEq, Repr

/-- The body of the loop of `SendValue` for one entry: the entry afterwards and the message
built for it, if its id matches. -/
def OscController.SendValue.body (control : Int) (value : Float32) (e : OscMap) :
    OscMap × Option OSCMessage :=
  if control = e.mControl then
    if e.mIsFloat then
      let e1 := { e with mFloatValue := value }
      (e1, some ⟨e1.mAddress, [.float32 e1.mFloatValue]⟩)
    else
      let e1 := { e with mIntValue := (value.mulInt 127).toInt }
      (e1, some ⟨e1.mAddress, [.int32 e1.mIntValue]⟩)
  else (e, none)

/-- The loop of `SendValue` over the registry, in index order. -/
def OscController.SendValue.loop (control : Int) (value : Float32) :
    List OscMap → List OscMap × List OSCMessage
  | [] => ([], [])
  | e :: rest =>
    let r := OscController.SendValue.body control value e
    let rs := OscController.SendValue.loop control value rest
    (r.1 :: rs.1, r.2.toList ++ rs.2)

/-- The method `SendValue` (`page`, `forceNoteOn` and `channel` are not used by the body). -/
def OscController.SendValue (s : OscController) (_page control : Int) (value : Float32) :
    SendResult :=
  if !s.mConnected then ⟨s, [], []⟩
  else
    let r := OscController.SendValue.loop control value s.mOscMap
    ⟨{ s with mOscMap := r.1 }, r.2, if s.mOutputConnected then r.2 else []⟩

/-! ## Receiving -/

/-- Split a character list at every character for which `isSep` holds. -/
def ofSplitString.chars (isSep : Char → Bool) : List Char → List (List Char)
  | [] => [[]]
  | c :: cs =>
    if isSep c then [] :: ofSplitString.chars isSep cs
    else
      match ofSplitString.chars isSep cs with
      | [] => [[c]]
      | t :: ts => (c :: t) :: ts

/-- Modelled from the spec: the helper `ofSplitString` is defined outside the sources at hand.
The spec says of its one use, `ofSplitString(s, ":")`, that it splits on `:`; the model cuts
the string at every character of `splitter` and keeps every piece. -/
def ofSplitString (str splitter : String) : List String :=
  (ofSplitString.chars (fun c => splitter.data.contains c) str.data).map String.mk

/-- Value of a run of leading decimal digits. -/
def ofToInt.digits : List Char → Nat → Nat
  | [], acc => acc
  | c :: cs, acc =>
    if c.isDigit then ofToInt.digits cs (acc * 10 + (c.toNat - 48)) else acc

/-- Modelled from the spec: the helper `ofToInt` is defined outside the sources at hand.  The
spec says the port is the integer value of the token; the model reads an optional minus sign
and the leading decimal digits. -/
def ofToInt (str : String) : Int :=
  match str.data with
  | '-' :: cs => -((ofToInt.digits cs 0 : Nat) : Int)
  | cs => ((ofToInt.digits cs 0 : Nat) : Int)

/-- What `oscMessageReceived` did: the controller afterwards, the calls made on the listener in
order, and the fault that stopped it, if any. -/
structure Outcome where
  state : OscController
  calls : List ListenerCall
  fault : Option Fault
deriving DecidableEq, Repr

/-- The branch of `oscMessageReceived` for the address `/jockey/sync`. -/
def OscController.oscMessageReceived.sync (env : Env) (s : OscController)
    (msg : OSCMessage) : Outcome :=
  match msg.get 0 with
  | .error f => ⟨s, [], some f⟩
  | .ok a =>
    match a.getString with
    | .error f => ⟨s, [], some f⟩
    | .ok outputAddress =>
      match ofSplitString outputAddress ":" with
      | [t0, t1] =>
        ⟨OscController.ConnectOutput env { s with mOutAddress := t0, mOutPort := ofToInt t1 },
          [], none⟩
      | _ => ⟨s, [], none⟩

/-- The condition of the note branch, evaluated left to right with the short-circuiting of
`&&` and `||`. -/
def OscController.oscMessageReceived.isNote (address : String) (msg : OSCMessage) :
    Except Fault Bool :=
  if ¬ ("/note".data <+: address.data) then .ok false
  else if ¬ (msg.size ≥ 2) then .ok false
  else do
    let a0 ← msg.get 0
    let floats ← (if a0.isFloat32 then do
      let a1 ← msg.get 1
      pure a1.isFloat32 else pure false)
    if floats then pure true
    else if a0.isInt32 then do
      let a1 ← msg.get 1
      if a1.isFloat32 then do
        let a2 ← msg.get 2
        pure a2.isFloat32
      else pure false
    else pure false

/-- The note built by the note branch. -/
def OscController.oscMessageReceived.makeNote (msg : OSCMessage) : Except Fault MidiNote := do
  let withChannel ← (if msg.size ≥ 3 then do
    let a0 ← msg.get 0
    pure a0.isInt32 else pure false)
  let mChannel ← (if withChannel then do
    let a0 ← msg.get 0
    a0.getInt32 else pure 1)
  let offset : Nat := if withChannel then 1 else 0
  let p ← msg.get (0 + offset)
  let mPitch ← p.getFloat32
  let v ← msg.get (1 + offset)
  let raw ← v.getFloat32
  let mVelocity : Int :=
    if raw.lt (Float32.ofInt (Int.tdiv 1 127)) then 0 else (raw.mulInt 127).toInt
  pure { mDeviceName := "osccontroller", mChannel := mChannel, mPitch := mPitch,
         mVelocity := mVelocity }

/-- The registry key of argument `i`: the expression
`(i > 0) ? address + " " + std::to_string(i + 1) : address`. -/
def OscController.oscMessageReceived.calculatedAddress (address : String) (i : Nat) : String :=
  if i > 0 then address ++ " " ++ toString (i + 1) else address

/-- The body of the control loop of `oscMessageReceived` for argument index `i`.  The source
reads `msg[i]` at the call of `AddControl`, in the asserts and in the getters; the model reads
it once, first, and keeps it as `arg`. -/
def OscController.oscMessageReceived.body (env : Env) (msg : OSCMessage) (address : String)
    (i : Nat) (s : OscController) : Outcome :=
  let calculated_address := OscController.oscMessageReceived.calculatedAddress address i
  let found := s.FindControl calculated_address
  match msg.get i with
  | .error f => ⟨s, [], some f⟩
  | .ok arg =>
    let isNew := decide (found = -1)
    let r := if found = -1 then OscController.AddControl env s calculated_address arg.isFloat32
             else (found, s)
    let mapIndex := r.1
    let s1 := r.2
    match s1.mapGet mapIndex with
    | .error f => ⟨s1, [], some f⟩
    | .ok e0 =>
      let e1 := { e0 with mLastChangedTime := env.gTime }
      let stored : Except Fault (OscMap × Float32) :=
        if e1.mIsFloat then
          match arg with
          | .float32 x => .ok ({ e1 with mFloatValue := x }, x.mulInt 127)
          | _ => .error .assertFailed
        else
          match arg with
          | .int32 n => .ok ({ e1 with mIntValue := n }, Float32.ofInt n)
          | _ => .error .assertFailed
      match stored with
      | .error f => ⟨{ s1 with mOscMap := s1.mOscMap.set mapIndex.toNat e1 }, [], some f⟩
      | .ok (e2, mValue) =>
        let control : MidiControl :=
          { mControl := e0.mControl, mDeviceName := "osccontroller", mChannel := 1,
            mValue := mValue }
        let layout : List ListenerCall :=
          if isNew ∧ s1.mListener = some .midiController then
            [.setLayoutConnectionType control.mControl
              (if e2.mIsFloat then .kControlType_Slider else .kControlType_Direct)]
          else []
        let forward : List ListenerCall :=
          if s1.mListener.isSome then [.OnMidiControl control] else []
        ⟨{ s1 with mOscMap := s1.mOscMap.set mapIndex.toNat e2 }, layout ++ forward, none⟩

/-- The control loop of `oscMessageReceived` over the argument indices still to do. -/
def OscController.oscMessageReceived.loop (env : Env) (msg : OSCMessage) (address : String) :
    List Nat → OscController → List ListenerCall → Outcome
  | [], s, calls => ⟨s, calls, none⟩
  | i :: rest, s, calls =>
    let o := OscController.oscMessageReceived.body env msg address i s
    match o.fault with
    | some f => ⟨o.state, calls ++ o.calls, some f⟩
    | none => OscController.oscMessageReceived.loop env msg address rest o.state
                (calls ++ o.calls)

/-- The method `oscMessageReceived`. -/
def OscController.oscMessageReceived (env : Env) (s : OscController) (msg : OSCMessage) :
    Outcome :=
  let address := msg.address
  if address = "/jockey/sync" then OscController.oscMessageReceived.sync env s msg
  else if msg.size = 0 then ⟨s, [], none⟩
  else
    match msg.get 0 with
    | .error f => ⟨s, [], some f⟩
    | .ok a0 =>
      if !a0.isFloat32 && !a0.isInt32 then ⟨s, [], none⟩
      else
        match OscController.oscMessageReceived.isNote address msg with
        | .error f => ⟨s, [], some f⟩
        | .ok true =>
          match OscController.oscMessageReceived.makeNote msg with
          | .error f => ⟨s, [], some f⟩
          | .ok note => ⟨s, if s.mListener.isSome then [.OnMidiNote note] else [], none⟩
        | .ok false =>
          OscController.oscMessageReceived.loop env msg address (List.range msg.size) s []

/-! ## Persistence -/

/-- The constant `kSaveStateRev`. -/
def kSaveStateRev : Int := 1

/-- One value in a state stream. -/
inductive StreamItem
  | int (n : Int)
  | string (s : String)
  | bool (b : Bool)
  | float (x : Float32)
  | double (t : Float64)
deriving DecidableEq, Repr

/-- Modelled from the spec: `FileStreamOut` and `FileStreamIn` are defined outside the sources
at hand.  The spec describes the persisted form as a sequence of values (version tag, entry
count, then the six fields of each entry); a stream is the list of the values written, and
`>>` takes the next value, failing when the stream is exhausted or the next value has another
type. -/
abbrev FileStream := List StreamItem

/-- The read `in >> (int)`. -/
def FileStream.readInt : FileStream → Option (Int × FileStream)
  | .int n :: rest => some (n, rest)
  | _ => none

/-- The read `in >> (std::string)`. -/
def FileStream.readString : FileStream → Option (String × FileStream)
  | .string a :: rest => some (a, rest)
  | _ => none

/-- The read `in >> (bool)`. -/
def FileStream.readBool : FileStream → Option (Bool × FileStream)
  | .bool b :: rest => some (b, rest)
  | _ => none

/-- The read `in >> (float)`. -/
def FileStream.readFloat : FileStream → Option (Float32 × FileStream)
  | .float x :: rest => some (x, rest)
  | _ => none

/-- The read `in >> (double)`. -/
def FileStream.readDouble : FileStream → Option (Float64 × FileStream)
  | .double t :: rest => some (t, rest)
  | _ => none

/-- The six writes of the loop body of `SaveState` for one entry. -/
def OscController.SaveState.body (e : OscMap) : FileStream :=
  [.int e.mControl, .string e.mAddress, .bool e.mIsFloat, .float e.mFloatValue,
   .int e.mIntValue, .double e.mLastChangedTime]

/-- The loop of `SaveState` over the registry, in index order. -/
def OscController.SaveState.loop : List OscMap → FileStream
  | [] => []
  | e :: rest => OscController.SaveState.body e ++ OscController.SaveState.loop rest

/-- The method `SaveState`: the stream `out` after the writes. -/
def OscController.SaveState (s : OscController) (out : FileStream) : FileStream :=
  out ++ [.int kSaveStateRev] ++ [.int (s.mOscMap.length : Int)]
    ++ OscController.SaveState.loop s.mOscMap

/-- Why `LoadState` stopped early. -/
inductive LoadError
  /-- The exception thrown by `LoadStateValidate`. -/
  | validate
  /-- A read `in >>` that found no value of the expected type. -/
  | read
  /-- The call `resize` with a negative count. -/
  | resize
deriving DecidableEq, Repr

/-- What `LoadState` did: the controller afterwards, the rest of the stream, and the error
that stopped it, if any. -/
structure LoadOutcome where
  state : OscController
  rest : FileStream
  error : Option LoadError
deriving DecidableEq, Repr

/-- Modelled from the spec: the macro `LoadStateValidate` is defined outside the sources at
hand.  The spec says a failed validation is a fatal load error reported to the caller; the
model returns the error when the condition is false. -/
def LoadStateValidate (cond : Bool) : Option LoadError :=
  if cond then none else some .validate

/-- The call `mOscMap.resize(n)`: keep the first `n` entries, pad with default entries. -/
def resize (v : List OscMap) (n : Nat) (dflt : OscMap) : List OscMap :=
  v.take n ++ List.replicate (n - v.length) dflt

/-- The six reads of the loop body of `LoadState` into one entry; a failed read leaves the
fields read so far in place. -/
def OscController.LoadState.body (e : OscMap) (input : FileStream) :
    OscMap × FileStream × Option LoadError :=
  match input.readInt with
  | none => (e, input, some .read)
  | some (c, in1) =>
    let e1 := { e with mControl := c }
    match in1.readString with
    | none => (e1, in1, some .read)
    | some (a, in2) =>
      let e2 := { e1 with mAddress := a }
      match in2.readBool with
      | none => (e2, in2, some .read)
      | some (b, in3) =>
        let e3 := { e2 with mIsFloat := b }
        match in3.readFloat with
        | none => (e3, in3, some .read)
        | some (x, in4) =>
          let e4 := { e3 with mFloatValue := x }
          match in4.readInt with
          | none => (e4, in4, some .read)
          | some (n, in5) =>
            let e5 := { e4 with mIntValue := n }
            match in5.readDouble with
            | none => (e5, in5, some .read)
            | some (t, in6) => ({ e5 with mLastChangedTime := t }, in6, none)

/-- The loop of `LoadState` over the resized registry, in index order. -/
def OscController.LoadState.loop : List OscMap → FileStream →
    List OscMap × FileStream × Option LoadError
  | [], input => ([], input, none)
  | e :: rest, input =>
    match OscController.LoadState.body e input with
    | (e1, in1, some err) => (e1 :: rest, in1, some err)
    | (e1, in1, none) =>
      let r := OscController.LoadState.loop rest in1
      (e1 :: r.1, r.2.1, r.2.2)

/-- The method `LoadState`. -/
def OscController.LoadState (env : Env) (s : OscController) (input : FileStream) :
    LoadOutcome :=
  match input.readInt with
  | none => ⟨s, input, some .read⟩
  | some (rev, in1) =>
    match LoadStateValidate (decide (rev ≤ kSaveStateRev)) with
    | some err => ⟨s, in1, some err⟩
    | none =>
      match in1.readInt with
      | none => ⟨s, in1, some .read⟩
      | some (mapSize, in2) =>
        if mapSize < 0 then ⟨s, in2, some .resize⟩
        else
          let r := OscController.LoadState.loop (resize s.mOscMap mapSize.toNat env.newEntry) in2
          ⟨{ s with mOscMap := r.1 }, r.2.1, r.2.2⟩

/-! ## Sessions and registry invariants -/

/-- The identifying fields of an entry: id, address and kind. -/
def OscMap.key (e : OscMap) : Int × String × Bool :=
  (e.mControl, e.mAddress, e.mIsFloat)

/-- Positional identity: every entry's `mControl` is its index in `mOscMap`. -/
def Positional (l : List OscMap) : Prop :=
  ∀ (i : Nat) (e : OscMap), l[i]? = some e → e.mControl = (i : Int)

/-- The registry `l2` comes from `l` by rewriting stored values and timestamps, and by
appending entries the way `AddControl` does: under an address no entry has yet, with the
current size as id. -/
inductive Extends : List OscMap → List OscMap → Prop
  | same (l l2 : List OscMap) : l2.map OscMap.key = l.map OscMap.key → Extends l l2
  | add (l l1 l2 : List OscMap) (address : String) (isFloat : Bool) :
      Extends l l1 → (∀ e ∈ l1, e.mAddress ≠ address) →
      l2.map OscMap.key = l1.map OscMap.key ++ [((l1.length : Int), address, isFloat)] →
      Extends l l2

/-- The controllers a session can be in: it starts with an empty registry, and then calls
`AddControl`, handles inbound packets and calls `SendValue`, in any order and any number of
times, with any clock reading and any behaviour of the OSC sender. -/
inductive Reachable : OscController → Prop
  | fresh (s : OscController) : s.mOscMap = [] → Reachable s
  | AddControl (env : Env) (s : OscController) (address : String) (isFloat : Bool) :
      Reachable s → Reachable (OscController.AddControl env s address isFloat).2
  | oscMessageReceived (env : Env) (s : OscController) (msg : OSCMessage) :
      Reachable s → Reachable (OscController.oscMessageReceived env s msg).state
  | SendValue (s : OscController) (page control : Int) (value : Float32) :
      Reachable s → Reachable (OscController.SendValue s page control value).state

/-! ## Note-shaped packets -/

/-- The two note shapes: the address begins with `/note`, and the arguments begin either with
two floats (pitch, velocity; the channel is then 1) or with an int and two floats (channel,
pitch, velocity). -/
def NoteShape (msg : OSCMessage) (channel : Int) (pitch v : Float32) : Prop :=
  "/note".data <+: msg.address.data ∧
    ((channel = 1 ∧ ∃ rest, msg.args = .float32 pitch :: .float32 v :: rest) ∨
      (∃ rest, msg.args = .int32 channel :: .float32 pitch :: .float32 v :: rest))

/-- The velocity requantization as the spec words it: 0 below `1/127`, otherwise `v × 127`
rounded to the nearest integer. -/
def specVelocity (v : ℚ) : Int :=
  if v < 1 / 127 then 0 else round (v * 127)

/-! ## Routing of control arguments -/

/-- The entry `e` holds the argument `a`, written at the clock reading of `env`. -/
def Stored (env : Env) (e : OscMap) (a : OSCArgument) : Prop :=
  e.mLastChangedTime = env.gTime ∧
    match a with
    | .float32 x => e.mIsFloat = true ∧ e.mFloatValue = x
    | .int32 n => e.mIsFloat = false ∧ e.mIntValue = n
    | _ => False

/-- In the registry `l` the argument `a` has been routed to the entry registered under
`address`: the lookup of `address` finds an index, and the entry there has that address and
holds `a`. -/
def RoutedTo (env : Env) (l : List OscMap) (address : String) (a : OSCArgument) : Prop :=
  ∃ (idx : Nat) (e : OscMap), OscController.FindControl.loop address l 0 = (idx : Int) ∧
    l[idx]? = some e ∧ e.mAddress = address ∧ Stored env e a

/-- The control ids carried by the `OnMidiControl` calls, in call order. -/
def controlIds (calls : List ListenerCall) : List Int :=
  calls.filterMap (fun c =>
    match c with
    | .OnMidiControl control => some control.mControl
    | _ => none)

/-! ## Concrete inputs used in the examples -/

/-- An environment for the examples: clock at 0, a sender whose `connect` succeeds, and a
default entry with all fields zero. -/
def exampleEnv : Env :=
  ⟨⟨0⟩, fun _ _ => true, ⟨0, "", false, ⟨0⟩, 0, ⟨0⟩⟩⟩

/-- A connected controller with an empty registry and the given listener. -/
def freshController (listener : Option Listener) : OscController :=
  ⟨listener, true, "", 0, 0, false, []⟩

/-- The packet `/mixer` with the three float arguments 0.5, 0.25 and 0.75. -/
def mixerPacket : OSCMessage :=
  ⟨"/mixer", [.float32 (Float32.ofDyadic 1 1), .float32 (Float32.ofDyadic 1 2),
    .float32 (Float32.ofDyadic 3 2)]⟩

/-- The packet `/note1` with the float arguments 60.0 and 0.5. -/
def notePacketHalf : OSCMessage :=
  ⟨"/note1", [.float32 (Float32.ofInt 60), .float32 (Float32.ofDyadic 1 1)]⟩

/-- The packet `/note1` with the arguments int 2, float 60.0 and float 1.0. -/
def notePacketChannel : OSCMessage :=
  ⟨"/note1", [.int32 2, .float32 (Float32.ofInt 60), .float32 (Float32.ofInt 1)]⟩

/-- The packet `/note1` with the float arguments 60.0 and `8454660 × 2^-30`, the largest
binary32 value below `1/127` (about 0.0078740157). -/
def notePacketEdge : OSCMessage :=
  ⟨"/note1", [.float32 (Float32.ofInt 60), .float32 (Float32.ofDyadic 8454660 30)]⟩

/-- A connected controller, output connected, whose registry holds the Integer control
`/knob` (id 0) and the Float control `/fader` (id 1). -/
def knobController : OscController :=
  ⟨none, true, "host", 9000, 0, true,
    [⟨0, "/knob", false, ⟨0⟩, 0, ⟨0⟩⟩, ⟨1, "/fader", true, ⟨0⟩, 0, ⟨0⟩⟩]⟩

/-- A connected controller with a listener whose registry holds `/mixer` and `/mixer 2`, both
Float and both with id 5 (distinct addresses, equal ids). -/
def duplicateIdController : OscController :=
  ⟨some .plain, true, "", 0, 0, false,
    [⟨5, "/mixer", true, ⟨0⟩, 0, ⟨0⟩⟩, ⟨5, "/mixer 2", true, ⟨0⟩, 0, ⟨0⟩⟩]⟩

/-- A state stream that `LoadState` accepts and that yields the registry of
`duplicateIdController`. -/
def duplicateIdStream : FileStream :=
  [.int 1, .int 2,
    .int 5, .string "/mixer", .bool true, .float ⟨0⟩, .int 0, .double ⟨0⟩,
    .int 5, .string "/mixer 2", .bool true, .float ⟨0⟩, .int 0, .double ⟨0⟩]

/-- The controller `knobController` with the output not connected (`mOutputConnected` false)
while the controller itself is connected. -/
def mutedController : OscController :=
  ⟨none, true, "host", 9000, 0, false,
    [⟨0, "/knob", false, ⟨0⟩, 0, ⟨0⟩⟩, ⟨1, "/fader", true, ⟨0⟩, 0, ⟨0⟩⟩]⟩

/-- An environment like `exampleEnv` with the clock at 7. -/
def laterEnv : Env :=
  ⟨⟨7⟩, fun _ _ => true, ⟨0, "", false, ⟨0⟩, 0, ⟨0⟩⟩⟩

/-- The `OnMidiControl` events among the calls, in call order. -/
def controlEvents (calls : List ListenerCall) : List MidiControl :=
  calls.filterMap (fun c =>
    match c with
    | .OnMidiControl control => some control
    | _ => none)

/-- The value the control loop puts into the event for the argument `a`: the expressions
`mFloatValue * 127` for a float and `mIntValue` for an int. -/
def controlValue : OSCArgument → Float32
  | .float32 x => x.mulInt 127
  | .int32 n => Float32.ofInt n
  | _ => ⟨0⟩

/-- The id of the entry that the lookup of `address` finds in `l` (-1 when there is none). -/
def controlAt (l : List OscMap) (address : String) : Int :=
  match l[(OscController.FindControl.loop address l 0).toNat]? with
  | some e => if OscController.FindControl.loop address l 0 = -1 then -1 else e.mControl
  | none => -1

/-! ## Lemmas on the floating-point model -/

theorem bitLength_zero (fuel : Nat) : Float32.bitLength fuel 0 = 0 := by
  cases fuel <;> simp [Float32.bitLength]

theorem bitLength_spec (fuel : Nat) : ∀ (a : Nat), a ≤ fuel → 0 < a →
    2 ^ (Float32.bitLength fuel a - 1) ≤ a ∧ a < 2 ^ Float32.bitLength fuel a := by
  induction fuel with
  | zero => intro a h0 h1; omega
  | succ f ih =>
    intro a hle hpos
    have hne : a ≠ 0 := by omega
    simp only [Float32.bitLength, hne, if_false, Nat.add_sub_cancel]
    rcases Nat.eq_zero_or_pos (a / 2) with h | h
    · have ha : a = 1 := by omega
      rw [h, bitLength_zero]
      subst ha
      simp
    · obtain ⟨hlo, hhi⟩ := ih (a / 2) (by omega) h
      have hb : 0 < Float32.bitLength f (a / 2) := by
        rcases Nat.eq_zero_or_pos (Float32.bitLength f (a / 2)) with h0 | h0
        · rw [h0] at hhi; simp at hhi; omega
        · exact h0
      constructor
      · have : 2 ^ Float32.bitLength f (a / 2) = 2 ^ (Float32.bitLength f (a / 2) - 1) * 2 := by
          rw [← Nat.pow_succ]; congr 1; omega
        rw [this]; omega
      · rw [Nat.pow_succ]; omega

/-! ## Lemmas on the registry lookup -/

theorem FindControl_loop_ge (address : String) (l : List OscMap) (i : Nat) :
    OscController.FindControl.loop address l i = -1 ∨
      ((i : Int) ≤ OscController.FindControl.loop address l i ∧
        OscController.FindControl.loop address l i < (i : Int) + (l.length : Int)) := by
  induction l generalizing i with
  | nil => left; rfl
  | cons e rest ih =>
    simp only [OscController.FindControl.loop]
    split
    · right; simp only [List.length_cons]; omega
    · rcases ih (i + 1) with h | h
      · left; exact h
      · right; simp only [List.length_cons]; push_cast at h ⊢; omega

theorem FindControl_loop_append_new (address : String) (l : List OscMap) (e : OscMap) (i : Nat)
    (hnot : OscController.FindControl.loop address l i = -1) (he : e.mAddress = address) :
    OscController.FindControl.loop address (l ++ [e]) i = (i : Int) + (l.length : Int) := by
  induction l generalizing i with
  | nil => simp [OscController.FindControl.loop, he]
  | cons x rest ih =>
    simp only [OscController.FindControl.loop] at hnot
    split at hnot
    · omega
    · rename_i hx
      have h1 := ih (i + 1) hnot
      rw [List.cons_append]
      simp only [OscController.FindControl.loop, hx, if_false, List.length_cons]
      rw [h1]; push_cast; omega

/-! ## Lemmas on the persistence loops -/

theorem LoadState_body_SaveState_body (e0 e : OscMap) (tail : FileStream) :
    OscController.LoadState.body e0 (OscController.SaveState.body e ++ tail) =
      (e, tail, none) := by
  cases e
  simp [OscController.LoadState.body, OscController.SaveState.body, FileStream.readInt,
    FileStream.readString, FileStream.readBool, FileStream.readFloat, FileStream.readDouble]

theorem LoadState_loop_SaveState_loop (r : List OscMap) :
    ∀ (l : List OscMap) (tail : FileStream), l.length = r.length →
      OscController.LoadState.loop l (OscController.SaveState.loop r ++ tail) =
        (r, tail, none) := by
  induction r with
  | nil =>
    intro l tail h
    have : l = [] := List.length_eq_zero.mp h
    subst this
    simp [OscController.LoadState.loop, OscController.SaveState.loop]
  | cons e rest ih =>
    intro l tail h
    cases l with
    | nil => simp at h
    | cons e0 l0 =>
      have hl : l0.length = rest.length := by simpa using h
      simp only [OscController.SaveState.loop, List.append_assoc, OscController.LoadState.loop,
        LoadState_body_SaveState_body, ih l0 tail hl]

theorem resize_length (v : List OscMap) (n : Nat) (dflt : OscMap) :
    (resize v n dflt).length = n := by
  simp only [resize, List.length_append, List.length_take, List.length_replicate]
  omega

theorem LoadState_loop_error (l : List OscMap) :
    ∀ (input : FileStream), (OscController.LoadState.loop l input).2.2 ≠ some .validate := by
  induction l with
  | nil => intro input; simp [OscController.LoadState.loop]
  | cons e rest ih =>
    intro input
    simp only [OscController.LoadState.loop]
    split
    · rename_i e1 in1 err heq
      have : err = .read := by
        simp only [OscController.LoadState.body] at heq
        repeat' split at heq
        all_goals simp_all
      simp [this]
    · exact ih _

/-! ## Persistence: claims C1 and C4 -/

/-- Claim C1: loading the stream written by `SaveState` for the registry of `r`, into a
controller `p` with any prior registry, succeeds, consumes exactly what was written and leaves
the registry equal to that of `r`, entry for entry and in the same order; nothing else of `p`
changes and no entry of `p` survives. -/
theorem C1_save_load_roundtrip (env : Env) (r p : OscController) (tail : FileStream) :
    OscController.LoadState env p (OscController.SaveState r [] ++ tail) =
      ⟨{ p with mOscMap := r.mOscMap }, tail, none⟩ := by
  have hlen : (resize p.mOscMap r.mOscMap.length env.newEntry).length = r.mOscMap.length :=
    resize_length _ _ _
  simp [OscController.LoadState, OscController.SaveState, FileStream.readInt,
    LoadStateValidate, kSaveStateRev, LoadState_loop_SaveState_loop r.mOscMap _ tail hlen]

/-- Claim C4: a stream whose version tag exceeds `kSaveStateRev` makes `LoadState` stop with
the validation error and the controller (so its registry) exactly as before; for a version tag
of at most `kSaveStateRev` the outcome is never the validation error. -/
theorem C4_version_validation (env : Env) (s : OscController) (rev : Int)
    (rest : FileStream) :
    (kSaveStateRev < rev →
        OscController.LoadState env s (.int rev :: rest) = ⟨s, rest, some .validate⟩) ∧
      (rev ≤ kSaveStateRev →
        (OscController.LoadState env s (.int rev :: rest)).error ≠ some .validate) := by
  constructor
  · intro h
    have h' : ¬ rev ≤ kSaveStateRev := not_le.mpr h
    simp [OscController.LoadState, FileStream.readInt, LoadStateValidate, h']
  · intro h
    simp only [OscController.LoadState, FileStream.readInt, LoadStateValidate, h, decide_True,
      if_true]
    split
    · simp
    · split
      · simp
      · exact LoadState_loop_error _ _

/-! ## Lemmas on registry growth -/

theorem FindControl_loop_eq_neg_one (address : String) (l : List OscMap) (i : Nat)
    (h : OscController.FindControl.loop address l i = -1) : ∀ e ∈ l, e.mAddress ≠ address := by
  induction l generalizing i with
  | nil => intro e he; simp at he
  | cons x rest ih =>
    simp only [OscController.FindControl.loop] at h
    split at h
    · omega
    · rename_i hx
      intro e he
      rcases List.mem_cons.mp he with rfl | he
      · exact fun hh => hx hh.symm
      · exact ih (i + 1) h e he

theorem map_key_set (l : List OscMap) (i : Nat) (e0 e1 : OscMap) (h0 : l[i]? = some e0)
    (hk : e1.key = e0.key) : (l.set i e1).map OscMap.key = l.map OscMap.key := by
  induction l generalizing i with
  | nil => simp
  | cons x rest ih =>
    cases i with
    | zero =>
      simp only [List.getElem?_cons_zero, Option.some.injEq] at h0
      subst h0
      simp [hk]
    | succ j =>
      simp only [List.getElem?_cons_succ] at h0
      simp [ih j h0]

theorem Extends.refl (l : List OscMap) : Extends l l :=
  Extends.same l l rfl

theorem Extends.trans {l1 l2 l3 : List OscMap} (h12 : Extends l1 l2) (h23 : Extends l2 l3) :
    Extends l1 l3 := by
  induction h23 with
  | same l3 hk =>
    cases h12 with
    | same _ hk0 => exact Extends.same _ _ (hk.trans hk0)
    | add la _ address isFloat hext hnew hk0 =>
      exact Extends.add _ la _ address isFloat hext hnew (hk.trans hk0)
  | add la lb address isFloat _ hnew hk ih =>
    exact Extends.add _ la _ address isFloat ih hnew hk

theorem Positional_of_map_key {l l2 : List OscMap} (hk : l2.map OscMap.key = l.map OscMap.key)
    (hp : Positional l) : Positional l2 := by
  intro i e he
  have h1 : (l2.map OscMap.key)[i]? = some e.key := by simp [he]
  rw [hk] at h1
  simp only [List.getElem?_map, Option.map_eq_some'] at h1
  obtain ⟨e0, he0, hkey⟩ := h1
  have := hp i e0 he0
  simp only [OscMap.key, Prod.mk.injEq] at hkey
  rw [← hkey.1]; exact this

theorem Positional_of_Extends {l l2 : List OscMap} (h : Extends l l2) (hp : Positional l) :
    Positional l2 := by
  induction h with
  | same l2 hk => exact Positional_of_map_key hk hp
  | add la lb address isFloat _ _ hk ih =>
    have hpa := ih
    intro i e he
    have h1 : (lb.map OscMap.key)[i]? = some e.key := by simp [he]
    rw [hk] at h1
    have hlen : (la.map OscMap.key).length = la.length := by simp
    rcases Nat.lt_or_ge i la.length with hi | hi
    · rw [List.getElem?_append_left (by simpa using hi)] at h1
      simp only [List.getElem?_map, Option.map_eq_some'] at h1
      obtain ⟨e0, he0, hkey⟩ := h1
      have := hpa i e0 he0
      simp only [OscMap.key, Prod.mk.injEq] at hkey
      rw [← hkey.1]; exact this
    · rw [List.getElem?_append_right (by simpa using hi)] at h1
      simp only [List.length_map] at h1
      rcases Nat.eq_zero_or_pos (i - la.length) with h0 | h0
      · rw [h0] at h1
        simp only [List.getElem?_cons_zero, Option.some.injEq, OscMap.key, Prod.mk.injEq] at h1
        rw [← h1.1]
        have : i = la.length := by omega
        rw [this]
      · have : (i - la.length) = (i - la.length - 1) + 1 := by omega
        rw [this] at h1
        simp at h1

theorem AddControl_Extends (env : Env) (s : OscController) (address : String)
    (isFloat : Bool) :
    Extends s.mOscMap (OscController.AddControl env s address isFloat).2.mOscMap := by
  unfold OscController.AddControl
  by_cases h : s.FindControl address = -1
  · simp only [h, ne_eq, not_true_eq_false, if_false]
    refine Extends.add _ s.mOscMap _ address isFloat (Extends.refl _)
      (FindControl_loop_eq_neg_one address s.mOscMap 0 h) ?_
    simp [OscMap.key]
  · simp only [ne_eq, h, not_false_eq_true, if_true]
    exact Extends.refl _

theorem mapGet_ok {s : OscController} {i : Int} {e : OscMap}
    (h : s.mapGet i = .ok e) : s.mOscMap[i.toNat]? = some e := by
  unfold OscController.mapGet at h
  split at h
  · cases h
  · split at h
    · rename_i e1 he1
      cases h
      exact he1
    · cases h

theorem body_Extends (env : Env) (msg : OSCMessage) (address : String) (i : Nat)
    (s : OscController) :
    Extends s.mOscMap (OscController.oscMessageReceived.body env msg address i s).state.mOscMap := by
  unfold OscController.oscMessageReceived.body
  generalize OscController.oscMessageReceived.calculatedAddress address i = ca
  simp only []
  split
  · exact Extends.refl _
  · rename_i arg _
    have hext1 : Extends s.mOscMap
        (if s.FindControl ca = -1 then OscController.AddControl env s ca arg.isFloat32
          else (s.FindControl ca, s)).2.mOscMap := by
      by_cases hf : s.FindControl ca = -1
      · rw [if_pos hf]; exact AddControl_Extends _ _ _ _
      · rw [if_neg hf]; exact Extends.refl _
    split
    · exact hext1
    · rename_i e0 hget
      have h0 := mapGet_ok hget
      split
      · refine Extends.trans hext1 (Extends.same _ _ ?_)
        exact map_key_set _ _ e0 _ h0 rfl
      · rename_i e2 mValue hst
        refine Extends.trans hext1 (Extends.same _ _ ?_)
        refine map_key_set _ _ e0 _ h0 ?_
        split at hst
        · split at hst
          · cases hst; rfl
          · cases hst
        · split at hst
          · cases hst; rfl
          · cases hst

theorem loop_Extends (env : Env) (msg : OSCMessage) (address : String) (is : List Nat) :
    ∀ (s : OscController) (calls : List ListenerCall),
      Extends s.mOscMap
        (OscController.oscMessageReceived.loop env msg address is s calls).state.mOscMap := by
  induction is with
  | nil => intro s calls; exact Extends.refl _
  | cons i rest ih =>
    intro s calls
    simp only [OscController.oscMessageReceived.loop]
    split
    · exact body_Extends env msg address i s
    · exact Extends.trans (body_Extends env msg address i s) (ih _ _)

theorem sync_mOscMap (env : Env) (s : OscController) (msg : OSCMessage) :
    (OscController.oscMessageReceived.sync env s msg).state.mOscMap = s.mOscMap := by
  unfold OscController.oscMessageReceived.sync
  split
  · rfl
  · split
    · rfl
    · split
      · unfold OscController.ConnectOutput
        split <;> rfl
      · rfl

theorem oscMessageReceived_Extends (env : Env) (s : OscController) (msg : OSCMessage) :
    Extends s.mOscMap (OscController.oscMessageReceived env s msg).state.mOscMap := by
  unfold OscController.oscMessageReceived
  simp only []
  split
  · rw [sync_mOscMap]; exact Extends.refl _
  · split
    · exact Extends.refl _
    · split
      · exact Extends.refl _
      · split
        · exact Extends.refl _
        · split
          · exact Extends.refl _
          · split <;> exact Extends.refl _
          · exact loop_Extends _ _ _ _ _ _

theorem SendValue_loop_map_key (control : Int) (value : Float32) (l : List OscMap) :
    (OscController.SendValue.loop control value l).1.map OscMap.key = l.map OscMap.key := by
  induction l with
  | nil => rfl
  | cons e rest ih =>
    simp only [OscController.SendValue.loop, List.map_cons, ih, List.cons.injEq, and_true]
    unfold OscController.SendValue.body
    split
    · split <;> rfl
    · rfl

theorem SendValue_Extends (s : OscController) (page control : Int) (value : Float32) :
    Extends s.mOscMap (OscController.SendValue s page control value).state.mOscMap := by
  unfold OscController.SendValue
  split
  · exact Extends.refl _
  · exact Extends.same _ _ (SendValue_loop_map_key _ _ _)

theorem Reachable_Positional {s : OscController} (h : Reachable s) : Positional s.mOscMap := by
  induction h with
  | fresh s h0 => intro i e he; rw [h0] at he; simp at he
  | AddControl env s address isFloat _ ih =>
    exact Positional_of_Extends (AddControl_Extends env s address isFloat) ih
  | oscMessageReceived env s msg _ ih =>
    exact Positional_of_Extends (oscMessageReceived_Extends env s msg) ih
  | SendValue s page control value _ ih =>
    exact Positional_of_Extends (SendValue_Extends s page control value) ih

/-- Witness for C4: version 2 is rejected and leaves the controller alone, version 1 passes
the validation. -/
theorem C4_version_validation_witness :
    OscController.LoadState exampleEnv (freshController none) [.int 2, .int 0] =
        ⟨freshController none, [.int 0], some .validate⟩ ∧
      (OscController.LoadState exampleEnv (freshController none) [.int 1, .int 0]).error ≠
        some .validate :=
  ⟨(C4_version_validation exampleEnv (freshController none) 2 [.int 0]).1 (by decide),
   (C4_version_validation exampleEnv (freshController none) 1 [.int 0]).2 (by decide)⟩

/-! ## Registry: claims C2 and C3 -/

/-- Claim C2: positional identity is an invariant of a session.  In every controller reachable
from an empty registry by `AddControl` calls, handled packets and `SendValue` calls, the entry
at index `i` of `mOscMap` has `mControl = i`. -/
theorem C2_positional_identity (s : OscController) (h : Reachable s) (i : Nat) (e : OscMap)
    (he : s.mOscMap[i]? = some e) : e.mControl = (i : Int) :=
  Reachable_Positional h i e he

set_option maxRecDepth 100000 in
/-- Witness for C2: after a fresh controller handled `/mixer` with three floats, the entry at
index 1 is the one for `/mixer 2` and carries id 1. -/
theorem C2_positional_identity_witness :
    (OscController.oscMessageReceived exampleEnv (freshController none)
        mixerPacket).state.mOscMap[1]? =
        some ⟨1, "/mixer 2", true, Float32.ofDyadic 1 2, 0, ⟨0⟩⟩ ∧
      (⟨1, "/mixer 2", true, Float32.ofDyadic 1 2, 0, ⟨0⟩⟩ : OscMap).mControl = ((1 : Nat) : Int) :=
  ⟨by decide,
   C2_positional_identity _
    (Reachable.oscMessageReceived exampleEnv (freshController none) mixerPacket
      (Reachable.fresh _ rfl)) 1 _ (by decide)⟩

/-- Claim C3: `AddControl` is idempotent.  Calling it for an address with kind `f1` and then
again with kind `f2` returns the same id both times, and the second call leaves the whole
controller (registry size, and the kind of the existing entry) unchanged. -/
theorem C3_AddControl_idempotent (env : Env) (s : OscController) (address : String)
    (f1 f2 : Bool) :
    (OscController.AddControl env (OscController.AddControl env s address f1).2 address f2).1 =
        (OscController.AddControl env s address f1).1 ∧
      (OscController.AddControl env (OscController.AddControl env s address f1).2 address f2).2 =
        (OscController.AddControl env s address f1).2 := by
  by_cases h : s.FindControl address = -1
  · have h1 : OscController.AddControl env s address f1 =
        ((s.mOscMap.length : Int), { s with mOscMap := s.mOscMap ++
          [OscMap.mk (s.mOscMap.length : Int) address f1 env.newEntry.mFloatValue
            env.newEntry.mIntValue env.newEntry.mLastChangedTime] }) := by
      simp [OscController.AddControl, h]
    have h2 : OscController.FindControl { s with mOscMap := s.mOscMap ++
          [OscMap.mk (s.mOscMap.length : Int) address f1 env.newEntry.mFloatValue
            env.newEntry.mIntValue env.newEntry.mLastChangedTime] } address =
        (s.mOscMap.length : Int) := by
      unfold OscController.FindControl
      rw [FindControl_loop_append_new address s.mOscMap _ 0 h rfl]
      simp
    rw [h1]
    have h3 : ((s.mOscMap.length : Int)) ≠ -1 := by omega
    simp [OscController.AddControl, h2, h3]
  · have h1 : OscController.AddControl env s address f1 = (s.FindControl address, s) := by
      simp [OscController.AddControl, h]
    rw [h1]
    simp [OscController.AddControl, h]

/-! ## Lemmas on the note branch -/

theorem note_ne_sync (address : String) (h : "/note".data <+: address.data) :
    address ≠ "/jockey/sync" := by
  intro heq
  subst heq
  revert h
  decide

theorem ofInt_one_div_127 : Float32.ofInt (Int.tdiv 1 127) = ⟨0⟩ := by
  decide

theorem note_outcome (env : Env) (s : OscController) (msg : OSCMessage) (channel : Int)
    (pitch v : Float32) (h : NoteShape msg channel pitch v) :
    OscController.oscMessageReceived env s msg =
      ⟨s, if s.mListener.isSome then
            [.OnMidiNote ⟨"osccontroller", channel, pitch,
              if v.units < 0 then 0 else (v.mulInt 127).toInt⟩]
          else [], none⟩ := by
  obtain ⟨hpre, hshape⟩ := h
  have hne := note_ne_sync _ hpre
  obtain ⟨address, args⟩ := msg
  simp only at hpre hne hshape
  rcases hshape with ⟨hc, rest, hargs⟩ | ⟨rest, hargs⟩
  · subst hargs hc
    simp [OscController.oscMessageReceived, hne, OSCMessage.size, OSCMessage.get,
      OSCArgument.isFloat32, OSCArgument.isInt32, OscController.oscMessageReceived.isNote,
      hpre, OscController.oscMessageReceived.makeNote, OSCArgument.getFloat32,
      ofInt_one_div_127, Float32.lt, bind, Except.bind, pure, Except.pure]
  · subst hargs
    simp [OscController.oscMessageReceived, hne, OSCMessage.size, OSCMessage.get,
      OSCArgument.isFloat32, OSCArgument.isInt32, OscController.oscMessageReceived.isNote,
      hpre, OscController.oscMessageReceived.makeNote, OSCArgument.getFloat32,
      OSCArgument.getInt32, ofInt_one_div_127, Float32.lt, bind, Except.bind, pure,
      Except.pure]

theorem toRat_neg_iff (v : Float32) : v.toRat < 0 ↔ v.units < 0 := by
  unfold Float32.toRat
  have h2 : (0 : ℚ) < 2 ^ 149 := by positivity
  rw [div_neg_iff]
  constructor
  · rintro (⟨_, h⟩ | ⟨h, _⟩)
    · exact absurd h2 (not_lt.mpr h.le)
    · exact_mod_cast h
  · intro h
    right
    exact ⟨by exact_mod_cast h, h2⟩

theorem note_velocity_of_mem (env : Env) (s : OscController) (msg : OSCMessage)
    (channel : Int) (pitch v : Float32) (h : NoteShape msg channel pitch v) (note : MidiNote)
    (hn : ListenerCall.OnMidiNote note ∈ (OscController.oscMessageReceived env s msg).calls) :
    note.mVelocity = if v.units < 0 then 0 else (v.mulInt 127).toInt := by
  rw [note_outcome env s msg channel pitch v h] at hn
  simp only at hn
  split at hn
  · simp only [List.mem_singleton, ListenerCall.OnMidiNote.injEq] at hn
    rw [hn]
  · simp at hn

/-! ## Notes: claims C5, C6 and C7 -/

set_option maxRecDepth 100000 in
/-- Counterexample to claim C5 as stated: for `/note1` with the floats 60.0 and 0.5 the handler
forwards a note of velocity 63, while the rule of the claim, round(0.5 × 127), gives 64. -/
theorem C5_counterexample :
    NoteShape notePacketHalf 1 (Float32.ofInt 60) (Float32.ofDyadic 1 1) ∧
      (Float32.ofDyadic 1 1).toRat = 1 / 2 ∧
      (OscController.oscMessageReceived exampleEnv (freshController (some .plain))
          notePacketHalf).calls =
        [.OnMidiNote ⟨"osccontroller", 1, Float32.ofInt 60, 63⟩] ∧
      specVelocity (1 / 2) = 64 := by
  refine ⟨⟨by decide, Or.inl ⟨rfl, [], rfl⟩⟩, ?_, by decide, ?_⟩
  · have : (Float32.ofDyadic 1 1).units = ((2 ^ 148 : Nat) : Int) := by decide
    rw [Float32.toRat, this]
    norm_num
  · unfold specVelocity
    rw [if_neg (by norm_num), round_eq, Int.floor_eq_iff]
    norm_num

/-- Claim C5, amended: for a note-shaped packet with raw velocity `v`, every forwarded note
has velocity 0 when `v < 0`, and when `v ≥ 1/127` and the binary32 product `v × 127` fits the
type `int` its velocity is that product truncated toward zero (not rounded). -/
theorem C5_velocity_truncated (env : Env) (s : OscController) (msg : OSCMessage)
    (channel : Int) (pitch v : Float32) (h : NoteShape msg channel pitch v) (note : MidiNote)
    (hn : ListenerCall.OnMidiNote note ∈ (OscController.oscMessageReceived env s msg).calls) :
    (v.toRat < 0 → note.mVelocity = 0) ∧
      (1 / 127 ≤ v.toRat → (v.mulInt 127).fitsInt = true →
        note.mVelocity = (v.mulInt 127).toInt) := by
  have hv := note_velocity_of_mem env s msg channel pitch v h note hn
  constructor
  · intro hneg
    rw [hv, if_pos ((toRat_neg_iff v).mp hneg)]
  · intro hge _
    have hnn : ¬ v.units < 0 := by
      intro hlt
      have := (toRat_neg_iff v).mpr hlt
      have h0 : (0 : ℚ) < 1 / 127 := by norm_num
      linarith
    rw [hv, if_neg hnn]

set_option maxRecDepth 100000 in
/-- Witness for C5: `/note1` with the floats 60.0 and 0.5, handled with a listener attached,
forwards the note of velocity 63, the truncated product 63.5. -/
theorem C5_velocity_truncated_witness :
    ListenerCall.OnMidiNote ⟨"osccontroller", 1, Float32.ofInt 60, 63⟩ ∈
        (OscController.oscMessageReceived exampleEnv (freshController (some .plain))
          notePacketHalf).calls ∧
      1 / 127 ≤ (Float32.ofDyadic 1 1).toRat ∧
      ((Float32.ofDyadic 1 1).mulInt 127).fitsInt = true ∧
      (63 : Int) = ((Float32.ofDyadic 1 1).mulInt 127).toInt := by
  have hge : 1 / 127 ≤ (Float32.ofDyadic 1 1).toRat := by
    have : (Float32.ofDyadic 1 1).units = ((2 ^ 148 : Nat) : Int) := by decide
    rw [Float32.toRat, this]
    norm_num
  exact ⟨by decide, hge, by decide,
    (C5_velocity_truncated exampleEnv (freshController (some .plain)) notePacketHalf 1
      (Float32.ofInt 60) (Float32.ofDyadic 1 1) ⟨by decide, Or.inl ⟨rfl, [], rfl⟩⟩
      ⟨"osccontroller", 1, Float32.ofInt 60, 63⟩ (by decide)).2 hge (by decide)⟩

set_option maxRecDepth 100000 in
/-- Claim C6 at its failing input: the raw velocity `8454660 × 2^-30` is a binary32 value below
`1/127`, yet the handler forwards a note of velocity 1: the guard `< 1 / 127` compares with 0,
and the binary32 product with 127 rounds up to 1.0. -/
theorem C6_edge_velocity :
    (Float32.ofDyadic 8454660 30).isBinary32 = true ∧
      (Float32.ofDyadic 8454660 30).toRat < 1 / 127 ∧
      NoteShape notePacketEdge 1 (Float32.ofInt 60) (Float32.ofDyadic 8454660 30) ∧
      (OscController.oscMessageReceived exampleEnv (freshController (some .plain))
          notePacketEdge).calls =
        [.OnMidiNote ⟨"osccontroller", 1, Float32.ofInt 60, 1⟩] := by
  refine ⟨by decide, ?_, ⟨by decide, Or.inl ⟨rfl, [], rfl⟩⟩, by decide⟩
  have : (Float32.ofDyadic 8454660 30).units = ((8454660 * 2 ^ 119 : Nat) : Int) := by decide
  rw [Float32.toRat, this]
  norm_num

/-- Counterexample to claim C7 as stated: with no listener attached (`mListener` null) the
note-shaped packet `/note1` with the floats 60.0 and 0.5 forwards nothing. -/
theorem C7_counterexample :
    NoteShape notePacketHalf 1 (Float32.ofInt 60) (Float32.ofDyadic 1 1) ∧
      (OscController.oscMessageReceived exampleEnv (freshController none)
          notePacketHalf).calls = [] :=
  ⟨⟨by decide, Or.inl ⟨rfl, [], rfl⟩⟩, by decide⟩

/-- Claim C7, amended: for a note-shaped packet (two leading floats: channel 1, pitch =
argument 0; or an int and two floats: channel = argument 0, pitch = argument 1) handled with a
listener attached, exactly one call is made on the listener, `OnMidiNote` with that channel and
pitch; there is no control event, no fault, and the controller is unchanged.  With no listener
attached nothing is forwarded. -/
theorem C7_note_forwarded (env : Env) (s : OscController) (msg : OSCMessage) (channel : Int)
    (pitch v : Float32) (h : NoteShape msg channel pitch v) :
    (s.mListener ≠ none →
        ∃ note : MidiNote,
          OscController.oscMessageReceived env s msg = ⟨s, [.OnMidiNote note], none⟩ ∧
            note.mDeviceName = "osccontroller" ∧ note.mChannel = channel ∧
            note.mPitch = pitch) ∧
      (s.mListener = none → OscController.oscMessageReceived env s msg = ⟨s, [], none⟩) := by
  rw [note_outcome env s msg channel pitch v h]
  constructor
  · intro hl
    have : s.mListener.isSome = true := by
      cases hls : s.mListener with
      | none => exact absurd hls hl
      | some l => rfl
    exact ⟨_, by rw [if_pos this], rfl, rfl, rfl⟩
  · intro hl
    simp [hl]

set_option maxRecDepth 100000 in
/-- Witness for C7: `/note1` with int 2, float 60.0 and float 1.0, handled with a listener
attached, forwards exactly the note with channel 2, pitch 60 and velocity 127. -/
theorem C7_note_forwarded_witness :
    OscController.oscMessageReceived exampleEnv (freshController (some .plain))
        notePacketChannel =
        ⟨freshController (some .plain),
          [.OnMidiNote ⟨"osccontroller", 2, Float32.ofInt 60, 127⟩], none⟩ ∧
      ∃ note : MidiNote,
        OscController.oscMessageReceived exampleEnv (freshController (some .plain))
            notePacketChannel = ⟨freshController (some .plain), [.OnMidiNote note], none⟩ ∧
          note.mDeviceName = "osccontroller" ∧ note.mChannel = 2 ∧
          note.mPitch = Float32.ofInt 60 :=
  ⟨by decide,
   (C7_note_forwarded exampleEnv (freshController (some .plain)) notePacketChannel 2
      (Float32.ofInt 60) (Float32.ofInt 1) ⟨by decide, Or.inr ⟨[], rfl⟩⟩).1 (by decide)⟩

/-! ## Sending: claim C9 -/

theorem SendValue_loop_built (control : Int) (value : Float32) (l : List OscMap) :
    (OscController.SendValue.loop control value l).2 =
      (l.filter (fun e => decide (control = e.mControl))).map
        (fun e => ⟨e.mAddress,
          [if e.mIsFloat then .float32 value else .int32 (value.mulInt 127).toInt]⟩) := by
  induction l with
  | nil => rfl
  | cons e rest ih =>
    simp only [OscController.SendValue.loop, ih, OscController.SendValue.body]
    by_cases hc : control = e.mControl
    · by_cases hf : e.mIsFloat = true
      · simp [hc, hf, List.filter_cons]
      · simp [hc, hf, List.filter_cons]
    · simp [hc, List.filter_cons]

set_option maxRecDepth 100000 in
/-- Counterexample to claim C9 as stated: the Integer control `/knob` sent the value 0.5
gets the message with the integer argument 63, while round(0.5 × 127) is 64. -/
theorem C9_counterexample :
    (Float32.ofDyadic 1 1).toRat = 1 / 2 ∧
      (OscController.SendValue knobController 0 0 (Float32.ofDyadic 1 1)).built =
        [⟨"/knob", [.int32 63]⟩] ∧
      round ((1 / 2 : ℚ) * 127) = 64 := by
  refine ⟨?_, by decide, ?_⟩
  · have : (Float32.ofDyadic 1 1).units = ((2 ^ 148 : Nat) : Int) := by decide
    rw [Float32.toRat, this]
    norm_num
  · rw [round_eq, Int.floor_eq_iff]
    norm_num

/-- Claim C9, amended: with the controller connected, and the binary32 product `value × 127`
fitting the type `int` whenever an Integer entry has the given id, `SendValue` builds, for each
entry whose `mControl` equals the given id and in registry order, one message addressed at the
entry's address with a single argument: the value itself as a float for a Float entry, and for
an Integer entry that product truncated toward zero (not rounded), an integer in the `int`
range.  The messages are sent when the output is connected. -/
theorem C9_send_scale (s : OscController) (page control : Int) (value : Float32)
    (hc : s.mConnected = true)
    (hfit : ∀ e ∈ s.mOscMap, e.mControl = control → e.mIsFloat = false →
      (value.mulInt 127).fitsInt = true) :
    (OscController.SendValue s page control value).built =
        (s.mOscMap.filter (fun e => decide (control = e.mControl))).map
          (fun e => ⟨e.mAddress,
            [if e.mIsFloat then .float32 value else .int32 (value.mulInt 127).toInt]⟩) ∧
      (OscController.SendValue s page control value).sent =
        (if s.mOutputConnected then (OscController.SendValue s page control value).built
        else []) ∧
      (∀ m ∈ (OscController.SendValue s page control value).built, ∀ n : Int,
        m.args = [.int32 n] → -2147483648 ≤ n ∧ n ≤ 2147483647) := by
  have hbuilt : (OscController.SendValue s page control value).built =
      (s.mOscMap.filter (fun e => decide (control = e.mControl))).map
        (fun e => ⟨e.mAddress,
          [if e.mIsFloat then .float32 value else .int32 (value.mulInt 127).toInt]⟩) := by
    simp [OscController.SendValue, hc, SendValue_loop_built]
  refine ⟨hbuilt, by simp [OscController.SendValue, hc], ?_⟩
  intro m hm n hargs
  rw [hbuilt] at hm
  obtain ⟨e, he, hme⟩ := List.mem_map.mp hm
  obtain ⟨hmem, hctl⟩ := List.mem_filter.mp he
  have hctl2 : e.mControl = control := (of_decide_eq_true hctl).symm
  subst hme
  cases hfl : e.mIsFloat with
  | true => simp [hfl] at hargs
  | false =>
    simp only [hfl, Bool.false_eq_true, if_false, List.cons.injEq, OSCArgument.int32.injEq,
      and_true] at hargs
    have hf := hfit e hmem hctl2 hfl
    simp only [Float32.fitsInt, Bool.and_eq_true, decide_eq_true_eq] at hf
    rw [← hargs]
    exact hf

set_option maxRecDepth 100000 in
/-- Witness for C9: the Integer control `/knob` sent 1.0 emits the integer 127, and the Float
control `/fader` sent 0.42 (the binary32 value `14092861 × 2^-25`) emits that float. -/
theorem C9_send_scale_witness :
    (OscController.SendValue knobController 0 0 (Float32.ofInt 1)).sent =
        [⟨"/knob", [.int32 127]⟩] ∧
      (OscController.SendValue knobController 0 1 (Float32.ofDyadic 14092861 25)).sent =
        [⟨"/fader", [.float32 (Float32.ofDyadic 14092861 25)]⟩] ∧
      ((Float32.ofInt 1).mulInt 127).fitsInt = true ∧
      (OscController.SendValue knobController 0 0 (Float32.ofInt 1)).built =
        (knobController.mOscMap.filter (fun e => decide ((0 : Int) = e.mControl))).map
          (fun e => ⟨e.mAddress,
            [if e.mIsFloat then .float32 (Float32.ofInt 1)
             else .int32 ((Float32.ofInt 1).mulInt 127).toInt]⟩) :=
  ⟨by decide, by decide, by decide,
   (C9_send_scale knobController 0 0 (Float32.ofInt 1) (by decide)
      (fun _ _ _ _ => by decide)).1⟩

/-! ## Sync: claim C10 -/

/-- Claim C10: a packet for `/jockey/sync` with one string argument sets the output host and
port to the two tokens when the string splits on `:` into exactly two tokens, and otherwise
leaves the controller as it was; in every case the registry is unchanged, no call is made on
the listener and no fault occurs.  With the modelled helpers, `host:9000` splits into `host`
and `9000`, whose integer value is 9000, while `badtoken` gives one token and `a:b:c` three. -/
theorem C10_sync (env : Env) (s : OscController) (str : String) :
    (∀ t0 t1 : String, ofSplitString str ":" = [t0, t1] →
        (OscController.oscMessageReceived env s ⟨"/jockey/sync", [.string str]⟩).state.mOutAddress
            = t0 ∧
          (OscController.oscMessageReceived env s ⟨"/jockey/sync", [.string str]⟩).state.mOutPort
            = ofToInt t1) ∧
      ((ofSplitString str ":").length ≠ 2 →
        (OscController.oscMessageReceived env s ⟨"/jockey/sync", [.string str]⟩).state = s) ∧
      (OscController.oscMessageReceived env s ⟨"/jockey/sync", [.string str]⟩).state.mOscMap
        = s.mOscMap ∧
      (OscController.oscMessageReceived env s ⟨"/jockey/sync", [.string str]⟩).calls = [] ∧
      (OscController.oscMessageReceived env s ⟨"/jockey/sync", [.string str]⟩).fault = none ∧
      ofSplitString "host:9000" ":" = ["host", "9000"] ∧ ofToInt "9000" = 9000 ∧
      ofSplitString "badtoken" ":" = ["badtoken"] ∧
      ofSplitString "a:b:c" ":" = ["a", "b", "c"] := by
  have hrun : OscController.oscMessageReceived env s ⟨"/jockey/sync", [.string str]⟩ =
      OscController.oscMessageReceived.sync env s ⟨"/jockey/sync", [.string str]⟩ := by
    simp [OscController.oscMessageReceived]
  rw [hrun]
  refine ⟨?_, ?_, sync_mOscMap _ _ _, ?_, ?_, by decide, by decide, by decide, by decide⟩
  · intro t0 t1 ht
    simp only [OscController.oscMessageReceived.sync, OSCMessage.get, List.getElem?_cons_zero,
      OSCArgument.getString, ht, OscController.ConnectOutput]
    split <;> exact ⟨rfl, rfl⟩
  · intro hlen
    simp only [OscController.oscMessageReceived.sync, OSCMessage.get, List.getElem?_cons_zero,
      OSCArgument.getString]
    split
    · rename_i t0 t1 ht
      rw [ht] at hlen
      exact absurd rfl hlen
    · rfl
  · simp only [OscController.oscMessageReceived.sync, OSCMessage.get, List.getElem?_cons_zero,
      OSCArgument.getString]
    split <;> rfl
  · simp only [OscController.oscMessageReceived.sync, OSCMessage.get, List.getElem?_cons_zero,
      OSCArgument.getString]
    split <;> rfl

/-- Witness for C10: `host:9000` moves the output to host `host`, port 9000, and `a:b:c`
leaves the controller as it was. -/
theorem C10_sync_witness :
    ((OscController.oscMessageReceived exampleEnv (freshController none)
          ⟨"/jockey/sync", [.string "host:9000"]⟩).state.mOutAddress = "host" ∧
        (OscController.oscMessageReceived exampleEnv (freshController none)
          ⟨"/jockey/sync", [.string "host:9000"]⟩).state.mOutPort = ofToInt "9000") ∧
      (OscController.oscMessageReceived exampleEnv (freshController none)
          ⟨"/jockey/sync", [.string "a:b:c"]⟩).state = freshController none :=
  ⟨(C10_sync exampleEnv (freshController none) "host:9000").1 "host" "9000" (by decide),
   (C10_sync exampleEnv (freshController none) "a:b:c").2.1 (by decide)⟩

/-! ## Lemmas on the registry keys of a packet -/

theorem digitChar_toNat (m : Nat) (h : m < 10) : (Nat.digitChar m).toNat - 48 = m := by
  interval_cases m <;> rfl

theorem foldl_toDigitsCore (fuel : Nat) : ∀ (n : Nat) (ds : List Char), n < fuel →
    (Nat.toDigitsCore 10 fuel n ds).foldl (fun a c => a * 10 + (c.toNat - 48)) 0 =
      ds.foldl (fun a c => a * 10 + (c.toNat - 48)) n := by
  induction fuel with
  | zero => intro n ds h; omega
  | succ f ih =>
    intro n ds h
    simp only [Nat.toDigitsCore]
    split
    · simp only [List.foldl_cons, Nat.zero_mul, Nat.zero_add]
      rw [digitChar_toNat _ (Nat.mod_lt _ (by omega))]
      congr 1
      omega
    · rw [ih (n / 10) _ (by omega)]
      simp only [List.foldl_cons]
      rw [digitChar_toNat _ (Nat.mod_lt _ (by omega))]
      congr 1
      omega

theorem toString_nat_injective (m n : Nat) (h : toString m = toString n) : m = n := by
  have hm := foldl_toDigitsCore (m + 1) m [] (by omega)
  have hn := foldl_toDigitsCore (n + 1) n [] (by omega)
  have h1 : (toString m).data = Nat.toDigitsCore 10 (m + 1) m [] := rfl
  have h2 : (toString n).data = Nat.toDigitsCore 10 (n + 1) n [] := rfl
  simp only [List.foldl_nil] at hm hn
  rw [← hm, ← hn, ← h1, ← h2, h]

theorem calculatedAddress_injective (address : String) (i j : Nat)
    (h : OscController.oscMessageReceived.calculatedAddress address i =
      OscController.oscMessageReceived.calculatedAddress address j) : i = j := by
  unfold OscController.oscMessageReceived.calculatedAddress at h
  by_cases hi : i > 0 <;> by_cases hj : j > 0
  · rw [if_pos hi, if_pos hj] at h
    have hd := congrArg String.data h
    simp only [String.data_append, List.append_assoc, List.append_cancel_left_eq] at hd
    have := toString_nat_injective (i + 1) (j + 1) (String.ext hd)
    omega
  · rw [if_pos hi, if_neg hj] at h
    have hd := congrArg String.length h
    simp only [String.length_append] at hd
    have : (" " : String).length = 1 := rfl
    omega
  · rw [if_neg hi, if_pos hj] at h
    have hd := congrArg String.length h
    simp only [String.length_append] at hd
    have : (" " : String).length = 1 := rfl
    omega
  · omega

theorem FindControl_loop_found (address : String) (l : List OscMap) (i : Nat)
    (h : OscController.FindControl.loop address l i ≠ -1) :
    ∃ (j : Nat) (e : OscMap), OscController.FindControl.loop address l i = ((i + j : Nat) : Int) ∧
      l[j]? = some e ∧ e.mAddress = address := by
  induction l generalizing i with
  | nil => simp [OscController.FindControl.loop] at h
  | cons x rest ih =>
    simp only [OscController.FindControl.loop] at h ⊢
    by_cases hx : address = x.mAddress
    · exact ⟨0, x, by simp [hx], by simp, hx.symm⟩
    · rw [if_neg hx] at h ⊢
      obtain ⟨j, e, hj, he, ha⟩ := ih (i + 1) h
      exact ⟨j + 1, e, by rw [hj]; push_cast; omega, by simpa using he, ha⟩

theorem FindControl_loop_congr (address : String) (l l2 : List OscMap) (i : Nat)
    (hk : l2.map OscMap.key = l.map OscMap.key) :
    OscController.FindControl.loop address l2 i = OscController.FindControl.loop address l i := by
  induction l generalizing l2 i with
  | nil =>
    have : l2 = [] := by simpa using hk
    subst this; rfl
  | cons x rest ih =>
    cases l2 with
    | nil => simp at hk
    | cons y rest2 =>
      simp only [List.map_cons, List.cons.injEq, OscMap.key, Prod.mk.injEq] at hk
      simp only [OscController.FindControl.loop, hk.1.2.1, ih rest2 (i + 1) hk.2]

theorem FindControl_loop_append_found (address : String) (l x : List OscMap) (i : Nat)
    (h : OscController.FindControl.loop address l i ≠ -1) :
    OscController.FindControl.loop address (l ++ x) i =
      OscController.FindControl.loop address l i := by
  induction l generalizing i with
  | nil => simp [OscController.FindControl.loop] at h
  | cons y rest ih =>
    rw [List.cons_append]
    simp only [OscController.FindControl.loop] at h ⊢
    by_cases hy : address = y.mAddress
    · simp [hy]
    · rw [if_neg hy] at h
      rw [if_neg hy, if_neg hy]
      exact ih (i + 1) h

theorem FindControl_loop_Extends {l l2 : List OscMap} (hext : Extends l l2) (address : String)
    (h : OscController.FindControl.loop address l 0 ≠ -1) :
    OscController.FindControl.loop address l2 0 = OscController.FindControl.loop address l 0 := by
  induction hext with
  | same l2 hk => exact FindControl_loop_congr address l l2 0 hk
  | add la lb a2 isFloat _ _ hk ih =>
    have hk2 : lb.map OscMap.key =
        (la ++ [OscMap.mk (la.length : Int) a2 isFloat ⟨0⟩ 0 ⟨0⟩]).map OscMap.key := by
      rw [hk]; simp [OscMap.key]
    rw [FindControl_loop_congr address _ lb 0 hk2,
      FindControl_loop_append_found address la _ 0 (by rw [ih]; exact h), ih]

/-! ## Lemmas on the control loop -/

theorem mapGet_eq (s : OscController) (j : Nat) (e : OscMap) (h : s.mOscMap[j]? = some e) :
    s.mapGet (j : Int) = .ok e := by
  unfold OscController.mapGet
  have : ¬ ((j : Int) < 0) := by omega
  simp [this, h]

theorem body_found (env : Env) (msg : OSCMessage) (address : String) (i : Nat)
    (s : OscController) (a : OSCArgument) (j : Nat) (e0 : OscMap)
    (ha : msg.args[i]? = some a)
    (hj : s.FindControl (OscController.oscMessageReceived.calculatedAddress address i) =
      (j : Int))
    (he0 : s.mOscMap[j]? = some e0) :
    OscController.oscMessageReceived.body env msg address i s =
      match (if e0.mIsFloat then
          (match a with
            | .float32 x => Except.ok
                ({ e0 with mLastChangedTime := env.gTime, mFloatValue := x }, x.mulInt 127)
            | _ => Except.error Fault.assertFailed)
          else
          (match a with
            | .int32 n => Except.ok
                ({ e0 with mLastChangedTime := env.gTime, mIntValue := n }, Float32.ofInt n)
            | _ => Except.error Fault.assertFailed) : Except Fault (OscMap × Float32)) with
      | .error f =>
        ⟨{ s with mOscMap := s.mOscMap.set j { e0 with mLastChangedTime := env.gTime } }, [],
          some f⟩
      | .ok (e2, mValue) =>
        ⟨{ s with mOscMap := s.mOscMap.set j e2 },
          if s.mListener.isSome then
            [.OnMidiControl ⟨e0.mControl, "osccontroller", 1, mValue⟩] else [], none⟩ := by
  have hne : ¬ ((j : Int) = -1) := by omega
  unfold OscController.oscMessageReceived.body
  simp only [OSCMessage.get, ha, hj, hne, if_false, mapGet_eq s j e0 he0, Int.toNat_ofNat,
    decide_False, Bool.false_eq_true, false_and, List.nil_append]
  cases a <;> cases hfl : e0.mIsFloat <;> simp [hfl]

theorem set_length_append (l : List OscMap) (x y : OscMap) :
    (l ++ [x]).set l.length y = l ++ [y] := by
  induction l with
  | nil => rfl
  | cons z rest ih => simp [ih]

theorem body_new (env : Env) (msg : OSCMessage) (address : String) (i : Nat)
    (s : OscController) (a : OSCArgument)
    (ha : msg.args[i]? = some a)
    (hf : s.FindControl (OscController.oscMessageReceived.calculatedAddress address i) = -1) :
    OscController.oscMessageReceived.body env msg address i s =
      match a with
      | .float32 x =>
        ⟨{ s with mOscMap := s.mOscMap ++
            [OscMap.mk (s.mOscMap.length : Int)
              (OscController.oscMessageReceived.calculatedAddress address i) true x
              env.newEntry.mIntValue env.gTime] },
          (if s.mListener = some .midiController then
            [.setLayoutConnectionType (s.mOscMap.length : Int) .kControlType_Slider] else []) ++
          (if s.mListener.isSome then
            [.OnMidiControl ⟨(s.mOscMap.length : Int), "osccontroller", 1, x.mulInt 127⟩]
            else []), none⟩
      | .int32 n =>
        ⟨{ s with mOscMap := s.mOscMap ++
            [OscMap.mk (s.mOscMap.length : Int)
              (OscController.oscMessageReceived.calculatedAddress address i) false
              env.newEntry.mFloatValue n env.gTime] },
          (if s.mListener = some .midiController then
            [.setLayoutConnectionType (s.mOscMap.length : Int) .kControlType_Direct] else []) ++
          (if s.mListener.isSome then
            [.OnMidiControl ⟨(s.mOscMap.length : Int), "osccontroller", 1, Float32.ofInt n⟩]
            else []), none⟩
      | _ =>
        ⟨{ s with mOscMap := s.mOscMap ++
            [OscMap.mk (s.mOscMap.length : Int)
              (OscController.oscMessageReceived.calculatedAddress address i) false
              env.newEntry.mFloatValue env.newEntry.mIntValue env.gTime] }, [],
          some .assertFailed⟩ := by
  have hget : ∀ (x : OscMap), (s.mOscMap ++ [x])[s.mOscMap.length]? = some x := by
    intro x; simp
  unfold OscController.oscMessageReceived.body
  simp only [OSCMessage.get, ha, hf, if_true, OscController.AddControl, ne_eq,
    not_true_eq_false, if_false, decide_True]
  rw [mapGet_eq _ s.mOscMap.length _ (hget _)]
  cases a <;>
    simp [OSCArgument.isFloat32, set_length_append]

theorem body_spec (env : Env) (msg : OSCMessage) (address : String) (i : Nat)
    (s : OscController) (a : OSCArgument) (ha : msg.args[i]? = some a)
    (ht : a.isFloat32 = true ∨ a.isInt32 = true)
    (hagree : ∀ e ∈ s.mOscMap,
      e.mAddress = OscController.oscMessageReceived.calculatedAddress address i →
        e.mIsFloat = a.isFloat32)
    (hpos : Positional s.mOscMap) :
    ∃ (idx : Nat) (e2 : OscMap),
      (OscController.oscMessageReceived.body env msg address i s).fault = none ∧
      (OscController.oscMessageReceived.body env msg address i s).state.mListener
        = s.mListener ∧
      OscController.FindControl.loop
        (OscController.oscMessageReceived.calculatedAddress address i)
        (OscController.oscMessageReceived.body env msg address i s).state.mOscMap 0
        = (idx : Int) ∧
      (OscController.oscMessageReceived.body env msg address i s).state.mOscMap[idx]?
        = some e2 ∧
      e2.mAddress = OscController.oscMessageReceived.calculatedAddress address i ∧
      Stored env e2 a ∧
      (∀ k : Nat, k ≠ idx → k < s.mOscMap.length →
        (OscController.oscMessageReceived.body env msg address i s).state.mOscMap[k]?
          = s.mOscMap[k]?) ∧
      (∀ (k : Nat) (e : OscMap),
        (OscController.oscMessageReceived.body env msg address i s).state.mOscMap[k]? = some e →
          k = idx ∨ s.mOscMap[k]? = some e) ∧
      controlIds (OscController.oscMessageReceived.body env msg address i s).calls =
        (if s.mListener.isSome then [(idx : Int)] else []) := by
  by_cases hf : s.FindControl (OscController.oscMessageReceived.calculatedAddress address i) = -1
  · -- a new entry is appended
    have hloop : ∀ x : OscMap,
        x.mAddress = OscController.oscMessageReceived.calculatedAddress address i →
        OscController.FindControl.loop
          (OscController.oscMessageReceived.calculatedAddress address i)
          (s.mOscMap ++ [x]) 0 = (s.mOscMap.length : Int) := by
      intro x hx
      rw [FindControl_loop_append_new _ s.mOscMap x 0 hf hx]
      simp
    have hkeep : ∀ (x : OscMap) (k : Nat), k < s.mOscMap.length →
        (s.mOscMap ++ [x])[k]? = s.mOscMap[k]? := by
      intro x k hk
      exact List.getElem?_append_left hk
    have hold : ∀ (x : OscMap) (k : Nat) (e : OscMap), (s.mOscMap ++ [x])[k]? = some e →
        k = s.mOscMap.length ∨ s.mOscMap[k]? = some e := by
      intro x k e hk
      rcases Nat.lt_or_ge k s.mOscMap.length with h | h
      · right; rw [← hkeep x k h]; exact hk
      · rcases Nat.eq_or_lt_of_le h with h | h
        · left; exact h.symm
        · rw [List.getElem?_eq_none (by simp; omega)] at hk; cases hk
    rw [body_new env msg address i s a ha hf]
    cases a with
    | float32 x =>
      refine ⟨s.mOscMap.length, OscMap.mk (s.mOscMap.length : Int)
          (OscController.oscMessageReceived.calculatedAddress address i) true x
          env.newEntry.mIntValue env.gTime, rfl, rfl, hloop _ rfl, by simp, rfl,
        ⟨rfl, rfl, rfl⟩, fun k _ hk => hkeep _ k hk, hold _, ?_⟩
      by_cases hl : s.mListener.isSome = true <;>
        by_cases hm : s.mListener = some Listener.midiController <;>
        simp [controlIds, hl, hm]
    | int32 n =>
      refine ⟨s.mOscMap.length, OscMap.mk (s.mOscMap.length : Int)
          (OscController.oscMessageReceived.calculatedAddress address i) false
          env.newEntry.mFloatValue n env.gTime, rfl, rfl, hloop _ rfl, by simp, rfl,
        ⟨rfl, rfl, rfl⟩, fun k _ hk => hkeep _ k hk, hold _, ?_⟩
      by_cases hl : s.mListener.isSome = true <;>
        by_cases hm : s.mListener = some Listener.midiController <;>
        simp [controlIds, hl, hm]
    | string str => simp [OSCArgument.isFloat32, OSCArgument.isInt32] at ht
    | blob => simp [OSCArgument.isFloat32, OSCArgument.isInt32] at ht
  · -- the entry exists
    obtain ⟨j, e0, hj, he0, hadr⟩ := FindControl_loop_found _ s.mOscMap 0 hf
    rw [Nat.zero_add] at hj
    have hmem : e0 ∈ s.mOscMap := List.getElem?_mem he0
    have hkind := hagree e0 hmem hadr
    have hid : e0.mControl = (j : Int) := hpos j e0 he0
    have hjlt : j < s.mOscMap.length := by
      rcases Nat.lt_or_ge j s.mOscMap.length with h | h
      · exact h
      · rw [List.getElem?_eq_none h] at he0; cases he0
    have hloop : ∀ e2 : OscMap, e2.key = e0.key →
        OscController.FindControl.loop
          (OscController.oscMessageReceived.calculatedAddress address i)
          (s.mOscMap.set j e2) 0 = (j : Int) := by
      intro e2 hk
      rw [FindControl_loop_congr _ s.mOscMap _ 0 (map_key_set s.mOscMap j e0 e2 he0 hk)]
      exact hj
    have hat : ∀ e2 : OscMap, (s.mOscMap.set j e2)[j]? = some e2 := by
      intro e2; simp [hjlt]
    have hkeep : ∀ (e2 : OscMap) (k : Nat), k ≠ j → (s.mOscMap.set j e2)[k]? = s.mOscMap[k]? := by
      intro e2 k hk
      exact List.getElem?_set_ne (Ne.symm hk)
    have hold : ∀ (e2 : OscMap) (k : Nat) (e : OscMap), (s.mOscMap.set j e2)[k]? = some e →
        k = j ∨ s.mOscMap[k]? = some e := by
      intro e2 k e hk
      by_cases hkj : k = j
      · left; exact hkj
      · right; rw [← hkeep e2 k hkj]; exact hk
    rw [body_found env msg address i s a j e0 ha hj he0]
    cases a with
    | float32 x =>
      have hfl : e0.mIsFloat = true := by rw [hkind]; rfl
      rw [if_pos hfl]
      refine ⟨j, { e0 with mLastChangedTime := env.gTime, mFloatValue := x }, rfl, rfl,
        hloop _ rfl, hat _, hadr, ⟨rfl, hfl, rfl⟩, fun k hk _ => hkeep _ k hk, hold _, ?_⟩
      by_cases hl : s.mListener.isSome = true <;> simp [controlIds, hl, hid]
    | int32 n =>
      have hfl : e0.mIsFloat = false := by rw [hkind]; rfl
      rw [if_neg (by rw [hfl]; exact Bool.false_ne_true)]
      refine ⟨j, { e0 with mLastChangedTime := env.gTime, mIntValue := n }, rfl, rfl,
        hloop _ rfl, hat _, hadr, ⟨rfl, hfl, rfl⟩, fun k hk _ => hkeep _ k hk, hold _, ?_⟩
      by_cases hl : s.mListener.isSome = true <;> simp [controlIds, hl, hid]
    | string str => simp [OSCArgument.isFloat32, OSCArgument.isInt32] at ht
    | blob => simp [OSCArgument.isFloat32, OSCArgument.isInt32] at ht

theorem controlIds_append (xs ys : List ListenerCall) :
    controlIds (xs ++ ys) = controlIds xs ++ controlIds ys := by
  simp [controlIds, List.filterMap_append]

theorem loop_spec (env : Env) (msg : OSCMessage) (address : String) :
    ∀ (is : List Nat) (s : OscController) (calls : List ListenerCall),
      is.Nodup →
      (∀ i ∈ is, ∃ a, msg.args[i]? = some a ∧ (a.isFloat32 = true ∨ a.isInt32 = true)) →
      (∀ i ∈ is, ∀ a, msg.args[i]? = some a → ∀ e ∈ s.mOscMap,
        e.mAddress = OscController.oscMessageReceived.calculatedAddress address i →
          e.mIsFloat = a.isFloat32) →
      Positional s.mOscMap →
      (OscController.oscMessageReceived.loop env msg address is s calls).fault = none ∧
      (OscController.oscMessageReceived.loop env msg address is s calls).state.mListener
        = s.mListener ∧
      (∀ i ∈ is, ∀ a, msg.args[i]? = some a →
        RoutedTo env (OscController.oscMessageReceived.loop env msg address is s calls).state.mOscMap
          (OscController.oscMessageReceived.calculatedAddress address i) a) ∧
      (∀ (ad : String) (a : OSCArgument),
        (∀ i ∈ is, OscController.oscMessageReceived.calculatedAddress address i ≠ ad) →
        RoutedTo env s.mOscMap ad a →
        RoutedTo env (OscController.oscMessageReceived.loop env msg address is s calls).state.mOscMap
          ad a) ∧
      ∃ extra : List ListenerCall,
        (OscController.oscMessageReceived.loop env msg address is s calls).calls
          = calls ++ extra ∧
        controlIds extra =
          if s.mListener.isSome then
            is.map (fun i => OscController.FindControl.loop
              (OscController.oscMessageReceived.calculatedAddress address i)
              (OscController.oscMessageReceived.loop env msg address is s calls).state.mOscMap 0)
          else [] := by
  intro is
  induction is with
  | nil =>
    intro s calls _ _ _ _
    refine ⟨rfl, rfl, ?_, ?_, [], ?_, ?_⟩
    · intro i hi; simp at hi
    · intro ad a _ h; exact h
    · simp [OscController.oscMessageReceived.loop]
    · simp [controlIds]
  | cons i rest ih =>
    intro s calls hnd htyped hagree hpos
    have hi_notin : i ∉ rest := (List.nodup_cons.mp hnd).1
    have hrest_nd : rest.Nodup := (List.nodup_cons.mp hnd).2
    obtain ⟨a, ha, hta⟩ := htyped i (List.mem_cons_self _ _)
    obtain ⟨idx, e2, hfault, hlis, hfind, hat, hadr, hst, hkeep, hold, hids⟩ :=
      body_spec env msg address i s a ha hta (hagree i (List.mem_cons_self _ _) a ha) hpos
    have hext1 := body_Extends env msg address i s
    have hpos1 := Positional_of_Extends hext1 hpos
    have hkey_ne : ∀ j ∈ rest, OscController.oscMessageReceived.calculatedAddress address j ≠
        OscController.oscMessageReceived.calculatedAddress address i := by
      intro j hj heq
      have := calculatedAddress_injective address j i heq
      exact hi_notin (this ▸ hj)
    have hagree1 : ∀ j ∈ rest, ∀ b, msg.args[j]? = some b →
        ∀ e ∈ (OscController.oscMessageReceived.body env msg address i s).state.mOscMap,
          e.mAddress = OscController.oscMessageReceived.calculatedAddress address j →
            e.mIsFloat = b.isFloat32 := by
      intro j hj b hb e he hea
      obtain ⟨k, hk⟩ := List.mem_iff_getElem?.mp he
      rcases hold k e hk with hki | hks
      · subst hki
        rw [hat] at hk
        cases hk
        exact absurd (hea.symm.trans hadr) (hkey_ne j hj)
      · exact hagree j (List.mem_cons_of_mem _ hj) b hb e (List.getElem?_mem hks) hea
    obtain ⟨ihf, ihl, ihr, ihp, extra, ihc, ihi⟩ :=
      ih (OscController.oscMessageReceived.body env msg address i s).state
        (calls ++ (OscController.oscMessageReceived.body env msg address i s).calls)
        hrest_nd (fun j hj => htyped j (List.mem_cons_of_mem _ hj)) hagree1 hpos1
    have hloop : OscController.oscMessageReceived.loop env msg address (i :: rest) s calls =
        OscController.oscMessageReceived.loop env msg address rest
          (OscController.oscMessageReceived.body env msg address i s).state
          (calls ++ (OscController.oscMessageReceived.body env msg address i s).calls) := by
      simp only [OscController.oscMessageReceived.loop, hfault]
    have hext2 := loop_Extends env msg address rest
      (OscController.oscMessageReceived.body env msg address i s).state
      (calls ++ (OscController.oscMessageReceived.body env msg address i s).calls)
    have hidx_ne : ((idx : Nat) : Int) ≠ -1 := by omega
    have hfind2 := FindControl_loop_Extends hext2
      (OscController.oscMessageReceived.calculatedAddress address i) (by rw [hfind]; exact hidx_ne)
    rw [hloop]
    refine ⟨ihf, ihl.trans hlis, ?_, ?_, (OscController.oscMessageReceived.body env msg address i s).calls ++ extra, ?_, ?_⟩
    · intro j hj b hb
      rcases List.mem_cons.mp hj with hji | hjr
      · subst hji
        rw [ha] at hb
        cases hb
        exact ihp _ _ hkey_ne ⟨idx, e2, hfind, hat, hadr, hst⟩
      · exact ihr j hjr b hb
    · intro ad b hne hr
      refine ihp ad b (fun j hj => hne j (List.mem_cons_of_mem _ hj)) ?_
      obtain ⟨idx2, e, hf2, he, hea, hse⟩ := hr
      have hf3 := FindControl_loop_Extends hext1 ad (by rw [hf2]; omega)
      have hlt : idx2 < s.mOscMap.length := by
        rcases Nat.lt_or_ge idx2 s.mOscMap.length with h | h
        · exact h
        · rw [List.getElem?_eq_none h] at he; cases he
      have hne2 : idx2 ≠ idx := by
        intro heq
        subst heq
        obtain ⟨j, e3, hj, he3, hea3⟩ := FindControl_loop_found ad
          (OscController.oscMessageReceived.body env msg address i s).state.mOscMap 0
          (by rw [hf3, hf2]; omega)
        rw [hf3, hf2, Nat.zero_add] at hj
        have hjj : j = idx2 := by omega
        subst hjj
        rw [hat] at he3
        cases he3
        exact hne i (List.mem_cons_self _ _) (hadr.symm.trans hea3)
      exact ⟨idx2, e, hf3.trans hf2, (hkeep idx2 hne2 hlt).trans he, hea, hse⟩
    · rw [ihc, List.append_assoc]
    · rw [controlIds_append, hids, ihi, hlis]
      by_cases hl : s.mListener.isSome = true
      · simp only [hl, if_true, List.map_cons, List.singleton_append, List.cons.injEq, and_true]
        rw [hfind2, hfind]
      · simp [hl]

theorem control_path (env : Env) (s : OscController) (address : String)
    (args : List OSCArgument) (hsync : address ≠ "/jockey/sync")
    (hnote : OscController.oscMessageReceived.isNote address ⟨address, args⟩ = .ok false)
    (hne : args ≠ []) (htyped : ∀ a ∈ args, a.isFloat32 = true ∨ a.isInt32 = true) :
    OscController.oscMessageReceived env s ⟨address, args⟩ =
      OscController.oscMessageReceived.loop env ⟨address, args⟩ address
        (List.range args.length) s [] := by
  cases args with
  | nil => exact absurd rfl hne
  | cons a0 rest =>
    have h0 := htyped a0 (List.mem_cons_self _ _)
    have h1 : (!a0.isFloat32 && !a0.isInt32) = false := by
      rcases h0 with h | h <;> simp [h]
    unfold OscController.oscMessageReceived
    simp only [hsync, if_false, OSCMessage.size, List.length_cons, Nat.succ_ne_zero,
      OSCMessage.get, List.getElem?_cons_zero, h1, Bool.false_eq_true, hnote]

/-! ## Control routing: claim C8 -/

set_option maxRecDepth 100000 in
/-- Counterexample to claim C8 as stated: a registry with the distinct addresses `/mixer` and
`/mixer 2` whose entries both carry id 5 (as `LoadState` produces from a stream that says so);
the packet `/mixer` with two floats is not a note, its arguments agree with the entries
(both Float), and the two control events it causes carry the ids 5 and 5, which are not
distinct. -/
theorem C8_counterexample :
    (OscController.LoadState exampleEnv (freshController (some .plain))
        duplicateIdStream).state = duplicateIdController ∧
      (duplicateIdController.mOscMap.map OscMap.mAddress).Nodup ∧
      OscController.oscMessageReceived.isNote "/mixer"
        ⟨"/mixer", [.float32 (Float32.ofDyadic 1 1), .float32 (Float32.ofDyadic 1 2)]⟩
          = .ok false ∧
      (∀ e ∈ duplicateIdController.mOscMap, e.mIsFloat = true) ∧
      controlIds (OscController.oscMessageReceived exampleEnv duplicateIdController
        ⟨"/mixer", [.float32 (Float32.ofDyadic 1 1), .float32 (Float32.ofDyadic 1 2)]⟩).calls
          = [5, 5] ∧
      ¬ ([5, 5] : List Int).Nodup := by
  refine ⟨by decide, by decide, by rfl, by decide, by decide, by decide⟩

/-- Claim C8, amended: take a registry in which every entry's id equals its index, and a packet
that is not for the sync address, whose note test comes out false, and whose arguments, at
least one, are each float- or int-typed and agree in kind with any entry already registered
under their key (`A` for argument 0, `A`, a blank and the decimal `i+1` for argument `i`).
Then the handler runs without fault; afterwards the lookup of each key finds an entry with that
address that holds the argument and the clock reading; the control ids carried by the control
events are pairwise distinct; and when a listener is attached there is one control event per
argument, in order, carrying the index found for the argument's key. -/
theorem C8_fan_out (env : Env) (s : OscController) (address : String)
    (args : List OSCArgument) (hsync : address ≠ "/jockey/sync")
    (hnote : OscController.oscMessageReceived.isNote address ⟨address, args⟩ = .ok false)
    (hne : args ≠ []) (htyped : ∀ a ∈ args, a.isFloat32 = true ∨ a.isInt32 = true)
    (hagree : ∀ (i : Nat) (a : OSCArgument), args[i]? = some a → ∀ e ∈ s.mOscMap,
      e.mAddress = OscController.oscMessageReceived.calculatedAddress address i →
        e.mIsFloat = a.isFloat32)
    (hpos : Positional s.mOscMap) :
    (OscController.oscMessageReceived env s ⟨address, args⟩).fault = none ∧
      (∀ (i : Nat) (a : OSCArgument), args[i]? = some a →
        RoutedTo env (OscController.oscMessageReceived env s ⟨address, args⟩).state.mOscMap
          (OscController.oscMessageReceived.calculatedAddress address i) a) ∧
      (controlIds (OscController.oscMessageReceived env s ⟨address, args⟩).calls).Nodup ∧
      (s.mListener ≠ none →
        controlIds (OscController.oscMessageReceived env s ⟨address, args⟩).calls =
          (List.range args.length).map (fun i =>
            (OscController.oscMessageReceived env s ⟨address, args⟩).state.FindControl
              (OscController.oscMessageReceived.calculatedAddress address i))) := by
  rw [control_path env s address args hsync hnote hne htyped]
  have hin : ∀ i ∈ List.range args.length, ∃ a, args[i]? = some a := by
    intro i hi
    have hlt : i < args.length := List.mem_range.mp hi
    exact ⟨args[i], List.getElem?_eq_getElem hlt⟩
  obtain ⟨hf, _, hr, _, extra, hc, hi⟩ :=
    loop_spec env ⟨address, args⟩ address (List.range args.length) s []
      (List.nodup_range _)
      (fun i hi => by
        obtain ⟨a, ha⟩ := hin i hi
        exact ⟨a, ha, htyped a (List.getElem?_mem ha)⟩)
      (fun i _ a ha => hagree i a ha) hpos
  rw [List.nil_append] at hc
  have hrouted : ∀ (i : Nat) (a : OSCArgument), args[i]? = some a →
      RoutedTo env (OscController.oscMessageReceived.loop env ⟨address, args⟩ address
        (List.range args.length) s []).state.mOscMap
        (OscController.oscMessageReceived.calculatedAddress address i) a := by
    intro i a ha
    have hlt : i < args.length := by
      rcases Nat.lt_or_ge i args.length with h | h
      · exact h
      · rw [List.getElem?_eq_none h] at ha; cases ha
    exact hr i (List.mem_range.mpr hlt) a ha
  refine ⟨hf, hrouted, ?_, ?_⟩
  · rw [hc, hi]
    split
    · refine List.Nodup.map_on ?_ (List.nodup_range _)
      intro x hx y hy hxy
      obtain ⟨ax, hax⟩ := hin x hx
      obtain ⟨ay, hay⟩ := hin y hy
      obtain ⟨ix, ex, hfx, hex, hadx, _⟩ := hrouted x ax hax
      obtain ⟨iy, ey, hfy, hey, hady, _⟩ := hrouted y ay hay
      rw [hfx, hfy] at hxy
      have hixy : ix = iy := by omega
      subst hixy
      rw [hex] at hey
      cases hey
      exact calculatedAddress_injective address x y (hadx.symm.trans hady)
    · exact List.nodup_nil
  · intro hl
    have : s.mListener.isSome = true := by
      cases hls : s.mListener with
      | none => exact absurd hls hl
      | some l => rfl
    rw [hc, hi, if_pos this]
    rfl

set_option maxRecDepth 100000 in
/-- Witness for C8: on an empty registry with a listener attached, `/mixer` with three floats
registers `/mixer`, `/mixer 2` and `/mixer 3` with the ids 0, 1 and 2, and the three control
events carry these three distinct ids. -/
theorem C8_fan_out_witness :
    (OscController.oscMessageReceived exampleEnv (freshController (some .plain))
        mixerPacket).state.mOscMap.map OscMap.key =
        [(0, "/mixer", true), (1, "/mixer 2", true), (2, "/mixer 3", true)] ∧
      controlIds (OscController.oscMessageReceived exampleEnv (freshController (some .plain))
        mixerPacket).calls = [0, 1, 2] ∧
      (controlIds (OscController.oscMessageReceived exampleEnv (freshController (some .plain))
        ⟨"/mixer", mixerPacket.args⟩).calls).Nodup :=
  ⟨by decide, by decide,
   (C8_fan_out exampleEnv (freshController (some .plain)) "/mixer" mixerPacket.args
      (by decide) (by rfl) (by decide) (by decide)
      (fun _ _ _ e he => by simp [freshController] at he)
      (fun i e he => by simp [freshController] at he)).2.2.1⟩

/-! ## Lookup and tooltip: claims C12 and C13 -/

theorem FindControl_loop_none (address : String) (l : List OscMap) (i : Nat)
    (h : ∀ e ∈ l, e.mAddress ≠ address) :
    OscController.FindControl.loop address l i = -1 := by
  induction l generalizing i with
  | nil => rfl
  | cons x rest ih =>
    have hx : ¬ address = x.mAddress := fun hh => h x (List.mem_cons_self _ _) hh.symm
    simp only [OscController.FindControl.loop, hx, if_false]
    exact ih (i + 1) (fun e he => h e (List.mem_cons_of_mem _ he))

theorem FindControl_loop_first (address : String) (l : List OscMap) :
    ∀ (i k : Nat), OscController.FindControl.loop address l i = ((i + k : Nat) : Int) ↔
      ((∃ e, l[k]? = some e ∧ e.mAddress = address) ∧
        ∀ j, j < k → ∀ e, l[j]? = some e → e.mAddress ≠ address) := by
  induction l with
  | nil =>
    intro i k
    simp only [OscController.FindControl.loop, List.getElem?_nil]
    constructor
    · intro h; omega
    · rintro ⟨⟨e, he, _⟩, _⟩; cases he
  | cons x rest ih =>
    intro i k
    simp only [OscController.FindControl.loop]
    by_cases hx : address = x.mAddress
    · rw [if_pos hx]
      cases k with
      | zero =>
        constructor
        · intro _
          exact ⟨⟨x, by simp, hx.symm⟩, fun j hj => by omega⟩
        · intro _; simp
      | succ k =>
        constructor
        · intro h; push_cast at h; omega
        · rintro ⟨_, hall⟩
          exact absurd hx.symm (hall 0 (by omega) x (by simp))
    · rw [if_neg hx]
      cases k with
      | zero =>
        constructor
        · intro h
          rcases FindControl_loop_ge address rest (i + 1) with h1 | h1
          · rw [h1] at h; omega
          · push_cast at h h1; omega
        · rintro ⟨⟨e, he, hea⟩, _⟩
          simp only [List.getElem?_cons_zero, Option.some.injEq] at he
          subst he
          exact absurd hea.symm hx
      | succ k =>
        have hik : ((i + (k + 1) : Nat) : Int) = ((i + 1 + k : Nat) : Int) := by
          push_cast; omega
        rw [hik, ih (i + 1) k]
        constructor
        · rintro ⟨⟨e, he, hea⟩, hall⟩
          refine ⟨⟨e, by simpa using he, hea⟩, ?_⟩
          intro j hj e' he'
          cases j with
          | zero =>
            simp only [List.getElem?_cons_zero, Option.some.injEq] at he'
            subst he'
            exact fun hh => hx hh.symm
          | succ j =>
            simp only [List.getElem?_cons_succ] at he'
            exact hall j (by omega) e' he'
        · rintro ⟨⟨e, he, hea⟩, hall⟩
          refine ⟨⟨e, by simpa using he, hea⟩, ?_⟩
          intro j hj e' he'
          exact hall (j + 1) (by omega) e' (by simpa using he')

/-- Claim C12: `FindControl` returns -1 exactly when no entry has the address, and otherwise
the smallest index whose entry has it, an index below the size of the registry.  It only
reads `mOscMap` (the function has no result but the index).  So an address that was never
registered is looked up as -1. -/
theorem C12_FindControl (s : OscController) (address : String) :
    (s.FindControl address = -1 ↔ ∀ e ∈ s.mOscMap, e.mAddress ≠ address) ∧
      (∀ k : Nat, s.FindControl address = (k : Int) ↔
        ((∃ e, s.mOscMap[k]? = some e ∧ e.mAddress = address) ∧
          ∀ j, j < k → ∀ e, s.mOscMap[j]? = some e → e.mAddress ≠ address)) ∧
      (s.FindControl address = -1 ∨
        ∃ k : Nat, k < s.mOscMap.length ∧ s.FindControl address = (k : Int)) := by
  refine ⟨⟨FindControl_loop_eq_neg_one address s.mOscMap 0,
    FindControl_loop_none address s.mOscMap 0⟩, ?_, ?_⟩
  · intro k
    have := FindControl_loop_first address s.mOscMap 0 k
    rw [Nat.zero_add] at this
    exact this
  · by_cases h : s.FindControl address = -1
    · left; exact h
    · right
      obtain ⟨j, e, hj, he, _⟩ := FindControl_loop_found address s.mOscMap 0 h
      rw [Nat.zero_add] at hj
      refine ⟨j, ?_, hj⟩
      rcases Nat.lt_or_ge j s.mOscMap.length with hlt | hge
      · exact hlt
      · rw [List.getElem?_eq_none hge] at he; cases he

/-- Witness for C12: in the registry holding `/knob` and `/fader`, the address `/never-seen`
is looked up as -1 and `/fader` as index 1. -/
theorem C12_FindControl_witness :
    knobController.FindControl "/never-seen" = -1 ∧
      knobController.FindControl "/fader" = ((1 : Nat) : Int) :=
  ⟨(C12_FindControl knobController "/never-seen").1.mpr (by decide),
   ((C12_FindControl knobController "/fader").2.1 1).mpr (by decide)⟩

/-- Claim C13: in a registry where every entry's id equals its index, `GetControlTooltip` for
the control message type returns the address of the entry whose id is the given one, and
`[unmapped]` when no entry has that id, which is the case for a negative id and for an id at
or beyond the size; for every other message type it returns `[unmapped]`. -/
theorem C13_GetControlTooltip (s : OscController) (hpos : Positional s.mOscMap)
    (control : Int) :
    (∀ e ∈ s.mOscMap, e.mControl = control →
        s.GetControlTooltip .kMidiMessage_Control control = e.mAddress) ∧
      ((∀ e ∈ s.mOscMap, e.mControl ≠ control) →
        s.GetControlTooltip .kMidiMessage_Control control = "[unmapped]") ∧
      ((control < 0 ∨ (s.mOscMap.length : Int) ≤ control) →
        ∀ e ∈ s.mOscMap, e.mControl ≠ control) ∧
      (∀ type : MidiMessageType, type ≠ .kMidiMessage_Control →
        s.GetControlTooltip type control = "[unmapped]") := by
  have hrange : ∀ e ∈ s.mOscMap, e.mControl = control →
      0 ≤ control ∧ control < (s.mOscMap.length : Int) ∧
        s.mOscMap[control.toNat]? = some e := by
    intro e he hc
    obtain ⟨k, hk⟩ := List.mem_iff_getElem?.mp he
    have hid := hpos k e hk
    have hlt : k < s.mOscMap.length := by
      rcases Nat.lt_or_ge k s.mOscMap.length with h | h
      · exact h
      · rw [List.getElem?_eq_none h] at hk; cases hk
    have hck : control = (k : Int) := by rw [← hc, hid]
    subst hck
    refine ⟨by omega, by omega, ?_⟩
    simpa using hk
  refine ⟨?_, ?_, ?_, ?_⟩
  · intro e he hc
    obtain ⟨h0, h1, h2⟩ := hrange e he hc
    unfold OscController.GetControlTooltip
    rw [if_pos ⟨rfl, h0, h1⟩, h2]
  · intro hnone
    unfold OscController.GetControlTooltip
    split
    · rename_i hcond
      split
      · rename_i e he
        have hid := hpos control.toNat e he
        have : e.mControl = control := by
          rw [hid]; exact Int.toNat_of_nonneg hcond.2.1
        exact absurd this (hnone e (List.getElem?_mem he))
      · rfl
    · rfl
  · intro hout e he hc
    obtain ⟨h0, h1, _⟩ := hrange e he hc
    omega
  · intro type ht
    unfold OscController.GetControlTooltip
    rw [if_neg (fun h => ht h.1)]

/-- Witness for C13: in the registry holding `/knob` (id 0) and `/fader` (id 1), id 1 is
described as `/fader` and id 7 as `[unmapped]`. -/
theorem C13_GetControlTooltip_witness :
    knobController.GetControlTooltip .kMidiMessage_Control 1 = "/fader" ∧
      knobController.GetControlTooltip .kMidiMessage_Control 7 = "[unmapped]" :=
  ⟨(C13_GetControlTooltip knobController (by
      intro i e he
      match i, he with
      | 0, he => simp [knobController] at he; rw [← he]; rfl
      | 1, he => simp [knobController] at he; rw [← he]; rfl
      | (k + 2), he => simp [knobController] at he) 1).1
      ⟨1, "/fader", true, ⟨0⟩, 0, ⟨0⟩⟩ (by decide) rfl,
   (C13_GetControlTooltip knobController (by
      intro i e he
      match i, he with
      | 0, he => simp [knobController] at he; rw [← he]; rfl
      | 1, he => simp [knobController] at he; rw [← he]; rfl
      | (k + 2), he => simp [knobController] at he) 7).2.1 (by decide)⟩

/-! ## Session invariants: claims C14 and C18 -/

theorem map_mAddress_of_key {l l2 : List OscMap} (hk : l2.map OscMap.key = l.map OscMap.key) :
    l2.map OscMap.mAddress = l.map OscMap.mAddress := by
  have h := congrArg (List.map (fun k : Int × String × Bool => k.2.1)) hk
  simpa [List.map_map, Function.comp_def, OscMap.key] using h

theorem Nodup_mAddress_of_Extends {l l2 : List OscMap} (h : Extends l l2)
    (hn : (l.map OscMap.mAddress).Nodup) : (l2.map OscMap.mAddress).Nodup := by
  induction h with
  | same l2 hk => rw [map_mAddress_of_key hk]; exact hn
  | add la lb address isFloat _ hnew hk ih =>
    have h := congrArg (List.map (fun k : Int × String × Bool => k.2.1)) hk
    simp only [List.map_map, Function.comp_def, OscMap.key, List.map_append, List.map_cons,
      List.map_nil] at h
    have h2 : lb.map OscMap.mAddress = la.map OscMap.mAddress ++ [address] := h
    rw [h2]
    refine List.Nodup.append ih (List.nodup_singleton _) ?_
    intro a ha hb
    simp only [List.mem_singleton] at hb
    subst hb
    obtain ⟨e, he, hea⟩ := List.mem_map.mp ha
    exact hnew e he hea

theorem Reachable_Nodup {s : OscController} (h : Reachable s) :
    (s.mOscMap.map OscMap.mAddress).Nodup := by
  induction h with
  | fresh s h0 => rw [h0]; exact List.nodup_nil
  | AddControl env s address isFloat _ ih =>
    exact Nodup_mAddress_of_Extends (AddControl_Extends env s address isFloat) ih
  | oscMessageReceived env s msg _ ih =>
    exact Nodup_mAddress_of_Extends (oscMessageReceived_Extends env s msg) ih
  | SendValue s page control value _ ih =>
    exact Nodup_mAddress_of_Extends (SendValue_Extends s page control value) ih

/-- Claim C14: address uniqueness is an invariant of a session.  In every controller reachable
from an empty registry by `AddControl` calls, handled packets and `SendValue` calls, two
entries at different indices have different addresses. -/
theorem C14_address_unique (s : OscController) (h : Reachable s) (i j : Nat)
    (ei ej : OscMap) (hi : s.mOscMap[i]? = some ei) (hj : s.mOscMap[j]? = some ej)
    (hij : i ≠ j) : ei.mAddress ≠ ej.mAddress := by
  have hn := Reachable_Nodup h
  intro heq
  have h1 : (s.mOscMap.map OscMap.mAddress)[i]? = some ei.mAddress := by simp [hi]
  have h2 : (s.mOscMap.map OscMap.mAddress)[j]? = some ei.mAddress := by simp [hj, heq]
  obtain ⟨hil, hie⟩ := List.getElem?_eq_some.mp h1
  obtain ⟨hjl, hje⟩ := List.getElem?_eq_some.mp h2
  exact hij ((List.Nodup.getElem_inj_iff hn).mp (hie.trans hje.symm))

set_option maxRecDepth 100000 in
/-- Witness for C14: after a fresh controller handled `/mixer` with three floats, the entries
at the indices 0 and 2 have the different addresses `/mixer` and `/mixer 3`. -/
theorem C14_address_unique_witness :
    (⟨0, "/mixer", true, Float32.ofDyadic 1 1, 0, ⟨0⟩⟩ : OscMap).mAddress ≠
      (⟨2, "/mixer 3", true, Float32.ofDyadic 3 2, 0, ⟨0⟩⟩ : OscMap).mAddress :=
  C14_address_unique _
    (Reachable.oscMessageReceived exampleEnv (freshController none) mixerPacket
      (Reachable.fresh _ rfl)) 0 2 _ _ (by decide) (by decide) (by decide)

theorem key_append_of_Extends {l l2 : List OscMap} (h : Extends l l2) :
    ∃ t : List (Int × String × Bool), l2.map OscMap.key = l.map OscMap.key ++ t := by
  induction h with
  | same l2 hk => exact ⟨[], by simpa using hk⟩
  | add la lb address isFloat _ _ hk ih =>
    obtain ⟨t, ht⟩ := ih
    exact ⟨t ++ [((la.length : Int), address, isFloat)], by rw [hk, ht, List.append_assoc]⟩

theorem kept_of_Extends {l l2 : List OscMap} (h : Extends l l2) :
    l.length ≤ l2.length ∧
      ∀ (i : Nat) (e : OscMap), l[i]? = some e →
        ∃ e2, l2[i]? = some e2 ∧ e2.mControl = e.mControl ∧ e2.mAddress = e.mAddress ∧
          e2.mIsFloat = e.mIsFloat := by
  obtain ⟨t, ht⟩ := key_append_of_Extends h
  have hlen : l2.length = l.length + t.length := by
    have := congrArg List.length ht
    simpa using this
  refine ⟨by omega, ?_⟩
  intro i e he
  have hlt : i < l.length := by
    rcases Nat.lt_or_ge i l.length with h1 | h1
    · exact h1
    · rw [List.getElem?_eq_none h1] at he; cases he
  have h1 : (l2.map OscMap.key)[i]? = some e.key := by
    rw [ht, List.getElem?_append_left (by simpa using hlt)]
    simp [he]
  simp only [List.getElem?_map, Option.map_eq_some'] at h1
  obtain ⟨e2, he2, hk⟩ := h1
  simp only [OscMap.key, Prod.mk.injEq] at hk
  exact ⟨e2, he2, hk.1, hk.2.1, hk.2.2⟩

/-- Claim C18: entries are never removed and never re-typed.  After one `AddControl`, one
handled packet of any kind, or one `SendValue`, the registry is at least as long as before and
at every index of the old registry the entry has the same id, address and kind as before. -/
theorem C18_entries_kept (env : Env) (s : OscController) (address : String) (isFloat : Bool)
    (msg : OSCMessage) (page control : Int) (value : Float32) (i : Nat) (e : OscMap)
    (he : s.mOscMap[i]? = some e) :
    (s.mOscMap.length ≤ (OscController.AddControl env s address isFloat).2.mOscMap.length ∧
        ∃ e2, (OscController.AddControl env s address isFloat).2.mOscMap[i]? = some e2 ∧
          e2.mControl = e.mControl ∧ e2.mAddress = e.mAddress ∧ e2.mIsFloat = e.mIsFloat) ∧
      (s.mOscMap.length ≤ (OscController.oscMessageReceived env s msg).state.mOscMap.length ∧
        ∃ e2, (OscController.oscMessageReceived env s msg).state.mOscMap[i]? = some e2 ∧
          e2.mControl = e.mControl ∧ e2.mAddress = e.mAddress ∧ e2.mIsFloat = e.mIsFloat) ∧
      (s.mOscMap.length ≤ (OscController.SendValue s page control value).state.mOscMap.length ∧
        ∃ e2, (OscController.SendValue s page control value).state.mOscMap[i]? = some e2 ∧
          e2.mControl = e.mControl ∧ e2.mAddress = e.mAddress ∧ e2.mIsFloat = e.mIsFloat) :=
  ⟨⟨(kept_of_Extends (AddControl_Extends env s address isFloat)).1,
      (kept_of_Extends (AddControl_Extends env s address isFloat)).2 i e he⟩,
   ⟨(kept_of_Extends (oscMessageReceived_Extends env s msg)).1,
      (kept_of_Extends (oscMessageReceived_Extends env s msg)).2 i e he⟩,
   ⟨(kept_of_Extends (SendValue_Extends s page control value)).1,
      (kept_of_Extends (SendValue_Extends s page control value)).2 i e he⟩⟩

set_option maxRecDepth 100000 in
/-- Witness for C18: in the registry holding `/knob` and `/fader`, handling `/fader` with the
float 0.5 rewrites the stored value of the entry at index 1 and keeps its id, address and
kind. -/
theorem C18_entries_kept_witness :
    knobController.mOscMap.length ≤
        (OscController.oscMessageReceived exampleEnv knobController
          ⟨"/fader", [.float32 (Float32.ofDyadic 1 1)]⟩).state.mOscMap.length ∧
      ∃ e2, (OscController.oscMessageReceived exampleEnv knobController
          ⟨"/fader", [.float32 (Float32.ofDyadic 1 1)]⟩).state.mOscMap[1]? = some e2 ∧
        e2.mControl = 1 ∧ e2.mAddress = "/fader" ∧ e2.mIsFloat = true :=
  (C18_entries_kept exampleEnv knobController "/fader" true
    ⟨"/fader", [.float32 (Float32.ofDyadic 1 1)]⟩ 0 1 (Float32.ofDyadic 1 1) 1
    ⟨1, "/fader", true, ⟨0⟩, 0, ⟨0⟩⟩ (by decide)).2.1

/-! ## Persistence: claim C15 -/

theorem LoadState_SaveState (env : Env) (r p : OscController) (tail : FileStream) :
    OscController.LoadState env p (OscController.SaveState r [] ++ tail) =
      ⟨{ p with mOscMap := r.mOscMap }, tail, none⟩ := by
  have hlen : (resize p.mOscMap r.mOscMap.length env.newEntry).length = r.mOscMap.length :=
    resize_length _ _ _
  simp [OscController.LoadState, OscController.SaveState, FileStream.readInt,
    LoadStateValidate, kSaveStateRev, LoadState_loop_SaveState_loop r.mOscMap _ tail hlen]

/-- Counterexample to claim C15 as stated: a stream with version tag 1 and two entries that
both store id 5 is accepted by `LoadState`, and afterwards the entry at index 0 has
`mControl = 5`. -/
theorem C15_counterexample :
    (OscController.LoadState exampleEnv (freshController none) duplicateIdStream).error = none ∧
      (OscController.LoadState exampleEnv (freshController none)
        duplicateIdStream).state.mOscMap[0]? = some ⟨5, "/mixer", true, ⟨0⟩, 0, ⟨0⟩⟩ ∧
      (⟨5, "/mixer", true, ⟨0⟩, 0, ⟨0⟩⟩ : OscMap).mControl ≠ ((0 : Nat) : Int) := by
  refine ⟨by decide, by decide, by decide⟩

/-- Claim C15, amended: `LoadState` restores the stored ids as they are.  For a stream that
`SaveState` wrote for a registry in which every entry's id equals its index, after the load
every entry's id equals its index again, whatever the registry was before. -/
theorem C15_load_positional (env : Env) (r p : OscController) (tail : FileStream)
    (hpos : Positional r.mOscMap) :
    (OscController.LoadState env p (OscController.SaveState r [] ++ tail)).error = none ∧
      Positional
        (OscController.LoadState env p (OscController.SaveState r [] ++ tail)).state.mOscMap := by
  rw [LoadState_SaveState]
  exact ⟨rfl, hpos⟩

/-- Witness for C15: the stream saved from the registry holding `/knob` (id 0) and `/fader`
(id 1), loaded into a fresh controller, gives a registry with ids equal to indices. -/
theorem C15_load_positional_witness :
    (OscController.LoadState exampleEnv (freshController none)
        (OscController.SaveState knobController [] ++ [])).error = none ∧
      Positional (OscController.LoadState exampleEnv (freshController none)
        (OscController.SaveState knobController [] ++ [])).state.mOscMap :=
  C15_load_positional exampleEnv knobController (freshController none) [] (by
    intro i e he
    match i, he with
    | 0, he => simp [knobController] at he; rw [← he]; rfl
    | 1, he => simp [knobController] at he; rw [← he]; rfl
    | (k + 2), he => simp [knobController] at he)

/-! ## Sending: claim C16 -/

theorem SendValue_loop_getElem (control : Int) (value : Float32) (l : List OscMap) :
    (OscController.SendValue.loop control value l).1 =
      l.map (fun e => (OscController.SendValue.body control value e).1) := by
  induction l with
  | nil => rfl
  | cons e rest ih => simp only [OscController.SendValue.loop, ih, List.map_cons]

set_option maxRecDepth 100000 in
/-- Counterexample to claim C16 as stated: with the output not connected but the controller
connected, `SendValue` of 1.0 to the Integer control `/knob` sends nothing, yet it stores 127
in the entry: the controller is not what it was. -/
theorem C16_counterexample :
    mutedController.mOutputConnected = false ∧
      (OscController.SendValue mutedController 0 0 (Float32.ofInt 1)).sent = [] ∧
      (OscController.SendValue mutedController 0 0 (Float32.ofInt 1)).state.mOscMap[0]? =
        some ⟨0, "/knob", false, ⟨0⟩, 127, ⟨0⟩⟩ ∧
      (OscController.SendValue mutedController 0 0 (Float32.ofInt 1)).state ≠
        mutedController := by
  refine ⟨by decide, by decide, by decide, by decide⟩

/-- Claim C16, amended: when the controller is not connected (`mConnected` false), `SendValue`
sends nothing and leaves the whole controller unchanged.  When only the output is not
connected (`mOutputConnected` false), it sends nothing and leaves everything but the stored
values unchanged: the entries whose id differs from the given one are kept as they are, and
an entry whose id matches still gets the value stored (the float itself, or for an Integer
entry the binary32 product with 127 truncated toward zero, provided it fits the type `int`). -/
theorem C16_send_disconnected (s : OscController) (page control : Int) (value : Float32) :
    (s.mConnected = false → OscController.SendValue s page control value = ⟨s, [], []⟩) ∧
      (s.mOutputConnected = false →
        (OscController.SendValue s page control value).sent = [] ∧
        (OscController.SendValue s page control value).state =
          { s with mOscMap := (OscController.SendValue s page control value).state.mOscMap } ∧
        ∀ (i : Nat) (e : OscMap), s.mOscMap[i]? = some e →
          (e.mControl ≠ control →
            (OscController.SendValue s page control value).state.mOscMap[i]? = some e) ∧
          (s.mConnected = true → e.mControl = control →
            (e.mIsFloat = false → (value.mulInt 127).fitsInt = true) →
            (OscController.SendValue s page control value).state.mOscMap[i]? =
              some (if e.mIsFloat then { e with mFloatValue := value }
                    else { e with mIntValue := (value.mulInt 127).toInt }))) := by
  constructor
  · intro hc
    simp [OscController.SendValue, hc]
  · intro ho
    by_cases hc : s.mConnected = true
    · simp only [OscController.SendValue, hc, Bool.not_true, Bool.false_eq_true, if_false, ho,
        SendValue_loop_getElem, true_and, List.getElem?_map]
      intro i e he
      rw [he]
      constructor
      · intro hne
        simp [OscController.SendValue.body, Ne.symm hne]
      · intro _ heq _
        by_cases hf : e.mIsFloat = true <;> simp [OscController.SendValue.body, heq, hf]
    · have hc2 : s.mConnected = false := by simpa using hc
      have hrun : OscController.SendValue s page control value = ⟨s, [], []⟩ := by
        simp [OscController.SendValue, hc2]
      rw [hrun]
      refine ⟨rfl, rfl, ?_⟩
      intro i e he
      exact ⟨fun _ => he, fun h => absurd h hc⟩

set_option maxRecDepth 100000 in
/-- Witness for C16: with the output not connected, sending 1.0 to `/knob` (id 0) sends
nothing, keeps the entry `/fader` (id 1) as it is and stores the truncated product, 127, in
`/knob`. -/
theorem C16_send_disconnected_witness :
    (OscController.SendValue mutedController 0 0 (Float32.ofInt 1)).sent = [] ∧
      (OscController.SendValue mutedController 0 0 (Float32.ofInt 1)).state.mOscMap[1]? =
        some ⟨1, "/fader", true, ⟨0⟩, 0, ⟨0⟩⟩ ∧
      ((Float32.ofInt 1).mulInt 127).fitsInt = true ∧
      ((Float32.ofInt 1).mulInt 127).toInt = 127 ∧
      (OscController.SendValue mutedController 0 0 (Float32.ofInt 1)).state.mOscMap[0]? =
        some (if (⟨0, "/knob", false, ⟨0⟩, 0, ⟨0⟩⟩ : OscMap).mIsFloat
              then { (⟨0, "/knob", false, ⟨0⟩, 0, ⟨0⟩⟩ : OscMap) with
                      mFloatValue := Float32.ofInt 1 }
              else { (⟨0, "/knob", false, ⟨0⟩, 0, ⟨0⟩⟩ : OscMap) with
                      mIntValue := ((Float32.ofInt 1).mulInt 127).toInt }) :=
  ⟨((C16_send_disconnected mutedController 0 0 (Float32.ofInt 1)).2 (by decide)).1,
   ((((C16_send_disconnected mutedController 0 0 (Float32.ofInt 1)).2 (by decide)).2.2 1
      ⟨1, "/fader", true, ⟨0⟩, 0, ⟨0⟩⟩ (by decide)).1 (by decide)),
   by decide, by decide,
   ((((C16_send_disconnected mutedController 0 0 (Float32.ofInt 1)).2 (by decide)).2.2 0
      ⟨0, "/knob", false, ⟨0⟩, 0, ⟨0⟩⟩ (by decide)).2 (by decide) rfl (fun _ => by decide))⟩

/-! ## Malformed arguments and argument indexing: claims C17 and C20 -/

set_option maxRecDepth 100000 in
/-- Claim C17 at its failing inputs.  On a fresh controller with a listener, the packet
`/mixer` with the float 0.5 and the string `x` registers `/mixer 2` as an Integer control for
the string and then fails the assert `msg[i].isInt32()`.  On the registry holding the Integer
control `/knob`, the packet `/knob` with the float 0.5 rewrites the timestamp of the entry and
then fails the same assert. -/
theorem C17_mismatch_asserts :
    (OscController.oscMessageReceived exampleEnv (freshController (some .plain))
        ⟨"/mixer", [.float32 (Float32.ofDyadic 1 1), .string "x"]⟩) =
        ⟨{ freshController (some .plain) with
            mOscMap := [⟨0, "/mixer", true, Float32.ofDyadic 1 1, 0, ⟨0⟩⟩,
                        ⟨1, "/mixer 2", false, ⟨0⟩, 0, ⟨0⟩⟩] },
          [.OnMidiControl ⟨0, "osccontroller", 1, (Float32.ofDyadic 1 1).mulInt 127⟩],
          some .assertFailed⟩ ∧
      (OscController.oscMessageReceived laterEnv knobController
        ⟨"/knob", [.float32 (Float32.ofDyadic 1 1)]⟩) =
        ⟨{ knobController with
            mOscMap := [⟨0, "/knob", false, ⟨0⟩, 0, ⟨7⟩⟩, ⟨1, "/fader", true, ⟨0⟩, 0, ⟨0⟩⟩] },
          [], some .assertFailed⟩ := by
  refine ⟨by decide, by decide⟩

set_option maxRecDepth 100000 in
/-- Claim C20 at its failing inputs.  For `/note1` with an int and one float the note test
reads `msg[2]` although the packet has two arguments, and for `/jockey/sync` with no argument
the sync branch reads `msg[0]`. -/
theorem C20_reads_out_of_range :
    (OscController.oscMessageReceived exampleEnv (freshController none)
        ⟨"/note1", [.int32 2, .float32 (Float32.ofInt 60)]⟩).fault =
        some (.argIndexOutOfRange 2) ∧
      (OscController.oscMessageReceived exampleEnv (freshController none)
        ⟨"/jockey/sync", []⟩).fault = some (.argIndexOutOfRange 0) := by
  refine ⟨by decide, by decide⟩


/-! ## Control routing: claim C11 -/

theorem body_routed (env : Env) (msg : OSCMessage) (address : String) (i : Nat)
    (s : OscController) (a : OSCArgument) (ha : msg.args[i]? = some a)
    (ht : a.isFloat32 = true ∨ a.isInt32 = true)
    (hagree : ∀ e ∈ s.mOscMap,
      e.mAddress = OscController.oscMessageReceived.calculatedAddress address i →
        e.mIsFloat = a.isFloat32) :
    ∃ (idx : Nat) (e2 : OscMap),
      (OscController.oscMessageReceived.body env msg address i s).fault = none ∧
      (OscController.oscMessageReceived.body env msg address i s).state.mListener
        = s.mListener ∧
      OscController.FindControl.loop
        (OscController.oscMessageReceived.calculatedAddress address i)
        (OscController.oscMessageReceived.body env msg address i s).state.mOscMap 0
        = (idx : Int) ∧
      (OscController.oscMessageReceived.body env msg address i s).state.mOscMap[idx]?
        = some e2 ∧
      e2.mAddress = OscController.oscMessageReceived.calculatedAddress address i ∧
      Stored env e2 a ∧
      (∀ k : Nat, k ≠ idx → k < s.mOscMap.length →
        (OscController.oscMessageReceived.body env msg address i s).state.mOscMap[k]?
          = s.mOscMap[k]?) ∧
      (∀ (k : Nat) (e : OscMap),
        (OscController.oscMessageReceived.body env msg address i s).state.mOscMap[k]? = some e →
          k = idx ∨ s.mOscMap[k]? = some e) ∧
      controlEvents (OscController.oscMessageReceived.body env msg address i s).calls =
        (if s.mListener.isSome then
          [⟨e2.mControl, "osccontroller", 1, controlValue a⟩] else []) := by
  by_cases hf : s.FindControl (OscController.oscMessageReceived.calculatedAddress address i) = -1
  · -- a new entry is appended
    have hloop : ∀ x : OscMap,
        x.mAddress = OscController.oscMessageReceived.calculatedAddress address i →
        OscController.FindControl.loop
          (OscController.oscMessageReceived.calculatedAddress address i)
          (s.mOscMap ++ [x]) 0 = (s.mOscMap.length : Int) := by
      intro x hx
      rw [FindControl_loop_append_new _ s.mOscMap x 0 hf hx]
      simp
    have hkeep : ∀ (x : OscMap) (k : Nat), k < s.mOscMap.length →
        (s.mOscMap ++ [x])[k]? = s.mOscMap[k]? := by
      intro x k hk
      exact List.getElem?_append_left hk
    have hold : ∀ (x : OscMap) (k : Nat) (e : OscMap), (s.mOscMap ++ [x])[k]? = some e →
        k = s.mOscMap.length ∨ s.mOscMap[k]? = some e := by
      intro x k e hk
      rcases Nat.lt_or_ge k s.mOscMap.length with h | h
      · right; rw [← hkeep x k h]; exact hk
      · rcases Nat.eq_or_lt_of_le h with h | h
        · left; exact h.symm
        · rw [List.getElem?_eq_none (by simp; omega)] at hk; cases hk
    rw [body_new env msg address i s a ha hf]
    cases a with
    | float32 x =>
      refine ⟨s.mOscMap.length, OscMap.mk (s.mOscMap.length : Int)
          (OscController.oscMessageReceived.calculatedAddress address i) true x
          env.newEntry.mIntValue env.gTime, rfl, rfl, hloop _ rfl, by simp, rfl,
        ⟨rfl, rfl, rfl⟩, fun k _ hk => hkeep _ k hk, hold _, ?_⟩
      by_cases hl : s.mListener.isSome = true <;>
        by_cases hm : s.mListener = some Listener.midiController <;>
        simp [controlEvents, controlValue, hl, hm]
    | int32 n =>
      refine ⟨s.mOscMap.length, OscMap.mk (s.mOscMap.length : Int)
          (OscController.oscMessageReceived.calculatedAddress address i) false
          env.newEntry.mFloatValue n env.gTime, rfl, rfl, hloop _ rfl, by simp, rfl,
        ⟨rfl, rfl, rfl⟩, fun k _ hk => hkeep _ k hk, hold _, ?_⟩
      by_cases hl : s.mListener.isSome = true <;>
        by_cases hm : s.mListener = some Listener.midiController <;>
        simp [controlEvents, controlValue, hl, hm]
    | string str => simp [OSCArgument.isFloat32, OSCArgument.isInt32] at ht
    | blob => simp [OSCArgument.isFloat32, OSCArgument.isInt32] at ht
  · -- the entry exists
    obtain ⟨j, e0, hj, he0, hadr⟩ := FindControl_loop_found _ s.mOscMap 0 hf
    rw [Nat.zero_add] at hj
    have hmem : e0 ∈ s.mOscMap := List.getElem?_mem he0
    have hkind := hagree e0 hmem hadr
    have hjlt : j < s.mOscMap.length := by
      rcases Nat.lt_or_ge j s.mOscMap.length with h | h
      · exact h
      · rw [List.getElem?_eq_none h] at he0; cases he0
    have hloop : ∀ e2 : OscMap, e2.key = e0.key →
        OscController.FindControl.loop
          (OscController.oscMessageReceived.calculatedAddress address i)
          (s.mOscMap.set j e2) 0 = (j : Int) := by
      intro e2 hk
      rw [FindControl_loop_congr _ s.mOscMap _ 0 (map_key_set s.mOscMap j e0 e2 he0 hk)]
      exact hj
    have hat : ∀ e2 : OscMap, (s.mOscMap.set j e2)[j]? = some e2 := by
      intro e2; simp [hjlt]
    have hkeep : ∀ (e2 : OscMap) (k : Nat), k ≠ j → (s.mOscMap.set j e2)[k]? = s.mOscMap[k]? := by
      intro e2 k hk
      exact List.getElem?_set_ne (Ne.symm hk)
    have hold : ∀ (e2 : OscMap) (k : Nat) (e : OscMap), (s.mOscMap.set j e2)[k]? = some e →
        k = j ∨ s.mOscMap[k]? = some e := by
      intro e2 k e hk
      by_cases hkj : k = j
      · left; exact hkj
      · right; rw [← hkeep e2 k hkj]; exact hk
    rw [body_found env msg address i s a j e0 ha hj he0]
    cases a with
    | float32 x =>
      have hfl : e0.mIsFloat = true := by rw [hkind]; rfl
      rw [if_pos hfl]
      refine ⟨j, { e0 with mLastChangedTime := env.gTime, mFloatValue := x }, rfl, rfl,
        hloop _ rfl, hat _, hadr, ⟨rfl, hfl, rfl⟩, fun k hk _ => hkeep _ k hk, hold _, ?_⟩
      by_cases hl : s.mListener.isSome = true <;> simp [controlEvents, controlValue, hl]
    | int32 n =>
      have hfl : e0.mIsFloat = false := by rw [hkind]; rfl
      rw [if_neg (by rw [hfl]; exact Bool.false_ne_true)]
      refine ⟨j, { e0 with mLastChangedTime := env.gTime, mIntValue := n }, rfl, rfl,
        hloop _ rfl, hat _, hadr, ⟨rfl, hfl, rfl⟩, fun k hk _ => hkeep _ k hk, hold _, ?_⟩
      by_cases hl : s.mListener.isSome = true <;> simp [controlEvents, controlValue, hl]
    | string str => simp [OSCArgument.isFloat32, OSCArgument.isInt32] at ht
    | blob => simp [OSCArgument.isFloat32, OSCArgument.isInt32] at ht

theorem controlEvents_append (xs ys : List ListenerCall) :
    controlEvents (xs ++ ys) = controlEvents xs ++ controlEvents ys := by
  simp [controlEvents, List.filterMap_append]

theorem controlAt_of (l : List OscMap) (address : String) (idx : Nat) (e : OscMap)
    (hf : OscController.FindControl.loop address l 0 = (idx : Int)) (he : l[idx]? = some e) :
    controlAt l address = e.mControl := by
  have hne : ¬ ((idx : Int) = -1) := by omega
  simp [controlAt, hf, he, hne]

theorem controlAt_Extends {l l2 : List OscMap} (hext : Extends l l2) (address : String)
    (h : OscController.FindControl.loop address l 0 ≠ -1) :
    controlAt l2 address = controlAt l address := by
  obtain ⟨j, e, hj, he, _⟩ := FindControl_loop_found address l 0 h
  rw [Nat.zero_add] at hj
  obtain ⟨e2, he2, hc, _, _⟩ := (kept_of_Extends hext).2 j e he
  rw [controlAt_of l address j e hj he,
    controlAt_of l2 address j e2 ((FindControl_loop_Extends hext address h).trans hj) he2, hc]

theorem loop_routed (env : Env) (msg : OSCMessage) (address : String) :
    ∀ (is : List Nat) (s : OscController) (calls : List ListenerCall),
      is.Nodup →
      (∀ i ∈ is, ∃ a, msg.args[i]? = some a ∧ (a.isFloat32 = true ∨ a.isInt32 = true)) →
      (∀ i ∈ is, ∀ a, msg.args[i]? = some a → ∀ e ∈ s.mOscMap,
        e.mAddress = OscController.oscMessageReceived.calculatedAddress address i →
          e.mIsFloat = a.isFloat32) →
      (OscController.oscMessageReceived.loop env msg address is s calls).fault = none ∧
      (OscController.oscMessageReceived.loop env msg address is s calls).state.mListener
        = s.mListener ∧
      (∀ i ∈ is, ∀ a, msg.args[i]? = some a →
        RoutedTo env (OscController.oscMessageReceived.loop env msg address is s calls).state.mOscMap
          (OscController.oscMessageReceived.calculatedAddress address i) a) ∧
      (∀ (ad : String) (a : OSCArgument),
        (∀ i ∈ is, OscController.oscMessageReceived.calculatedAddress address i ≠ ad) →
        RoutedTo env s.mOscMap ad a →
        RoutedTo env (OscController.oscMessageReceived.loop env msg address is s calls).state.mOscMap
          ad a) ∧
      ∃ extra : List ListenerCall,
        (OscController.oscMessageReceived.loop env msg address is s calls).calls
          = calls ++ extra ∧
        controlEvents extra =
          if s.mListener.isSome then
            is.map (fun i => ⟨controlAt
              (OscController.oscMessageReceived.loop env msg address is s calls).state.mOscMap
              (OscController.oscMessageReceived.calculatedAddress address i),
              "osccontroller", 1, controlValue (msg.args[i]?.getD .blob)⟩)
          else [] := by
  intro is
  induction is with
  | nil =>
    intro s calls _ _ _
    refine ⟨rfl, rfl, ?_, ?_, [], ?_, ?_⟩
    · intro i hi; simp at hi
    · intro ad a _ h; exact h
    · simp [OscController.oscMessageReceived.loop]
    · simp [controlEvents]
  | cons i rest ih =>
    intro s calls hnd htyped hagree
    have hi_notin : i ∉ rest := (List.nodup_cons.mp hnd).1
    have hrest_nd : rest.Nodup := (List.nodup_cons.mp hnd).2
    obtain ⟨a, ha, hta⟩ := htyped i (List.mem_cons_self _ _)
    obtain ⟨idx, e2, hfault, hlis, hfind, hat, hadr, hst, hkeep, hold, hids⟩ :=
      body_routed env msg address i s a ha hta (hagree i (List.mem_cons_self _ _) a ha)
    have hext1 := body_Extends env msg address i s
    have hkey_ne : ∀ j ∈ rest, OscController.oscMessageReceived.calculatedAddress address j ≠
        OscController.oscMessageReceived.calculatedAddress address i := by
      intro j hj heq
      have := calculatedAddress_injective address j i heq
      exact hi_notin (this ▸ hj)
    have hagree1 : ∀ j ∈ rest, ∀ b, msg.args[j]? = some b →
        ∀ e ∈ (OscController.oscMessageReceived.body env msg address i s).state.mOscMap,
          e.mAddress = OscController.oscMessageReceived.calculatedAddress address j →
            e.mIsFloat = b.isFloat32 := by
      intro j hj b hb e he hea
      obtain ⟨k, hk⟩ := List.mem_iff_getElem?.mp he
      rcases hold k e hk with hki | hks
      · subst hki
        rw [hat] at hk
        cases hk
        exact absurd (hea.symm.trans hadr) (hkey_ne j hj)
      · exact hagree j (List.mem_cons_of_mem _ hj) b hb e (List.getElem?_mem hks) hea
    obtain ⟨ihf, ihl, ihr, ihp, extra, ihc, ihi⟩ :=
      ih (OscController.oscMessageReceived.body env msg address i s).state
        (calls ++ (OscController.oscMessageReceived.body env msg address i s).calls)
        hrest_nd (fun j hj => htyped j (List.mem_cons_of_mem _ hj)) hagree1
    have hloop : OscController.oscMessageReceived.loop env msg address (i :: rest) s calls =
        OscController.oscMessageReceived.loop env msg address rest
          (OscController.oscMessageReceived.body env msg address i s).state
          (calls ++ (OscController.oscMessageReceived.body env msg address i s).calls) := by
      simp only [OscController.oscMessageReceived.loop, hfault]
    have hext2 := loop_Extends env msg address rest
      (OscController.oscMessageReceived.body env msg address i s).state
      (calls ++ (OscController.oscMessageReceived.body env msg address i s).calls)
    have hidx_ne : ((idx : Nat) : Int) ≠ -1 := by omega
    have hfind2 := FindControl_loop_Extends hext2
      (OscController.oscMessageReceived.calculatedAddress address i) (by rw [hfind]; exact hidx_ne)
    rw [hloop]
    refine ⟨ihf, ihl.trans hlis, ?_, ?_, (OscController.oscMessageReceived.body env msg address i s).calls ++ extra, ?_, ?_⟩
    · intro j hj b hb
      rcases List.mem_cons.mp hj with hji | hjr
      · subst hji
        rw [ha] at hb
        cases hb
        exact ihp _ _ hkey_ne ⟨idx, e2, hfind, hat, hadr, hst⟩
      · exact ihr j hjr b hb
    · intro ad b hne hr
      refine ihp ad b (fun j hj => hne j (List.mem_cons_of_mem _ hj)) ?_
      obtain ⟨idx2, e, hf2, he, hea, hse⟩ := hr
      have hf3 := FindControl_loop_Extends hext1 ad (by rw [hf2]; omega)
      have hlt : idx2 < s.mOscMap.length := by
        rcases Nat.lt_or_ge idx2 s.mOscMap.length with h | h
        · exact h
        · rw [List.getElem?_eq_none h] at he; cases he
      have hne2 : idx2 ≠ idx := by
        intro heq
        subst heq
        obtain ⟨j, e3, hj, he3, hea3⟩ := FindControl_loop_found ad
          (OscController.oscMessageReceived.body env msg address i s).state.mOscMap 0
          (by rw [hf3, hf2]; omega)
        rw [hf3, hf2, Nat.zero_add] at hj
        have hjj : j = idx2 := by omega
        subst hjj
        rw [hat] at he3
        cases he3
        exact hne i (List.mem_cons_self _ _) (hadr.symm.trans hea3)
      exact ⟨idx2, e, hf3.trans hf2, (hkeep idx2 hne2 hlt).trans he, hea, hse⟩
    · rw [ihc, List.append_assoc]
    · rw [controlEvents_append, hids, ihi, hlis]
      by_cases hl : s.mListener.isSome = true
      · simp only [hl, if_true, List.map_cons, List.singleton_append, List.cons.injEq, and_true]
        rw [controlAt_Extends hext2 _ (by rw [hfind]; exact hidx_ne),
          controlAt_of _ _ idx e2 hfind hat, ha]
        rfl
      · simp [hl]


theorem body_keep (env : Env) (msg : OSCMessage) (address : String) (j : Nat)
    (s : OscController) (k : Nat) (e : OscMap) (he : s.mOscMap[k]? = some e)
    (hne : e.mAddress ≠ OscController.oscMessageReceived.calculatedAddress address j) :
    (OscController.oscMessageReceived.body env msg address j s).state.mOscMap[k]? = some e := by
  have hklt : k < s.mOscMap.length := by
    rcases Nat.lt_or_ge k s.mOscMap.length with h | h
    · exact h
    · rw [List.getElem?_eq_none h] at he; cases he
  cases hg : msg.args[j]? with
  | none =>
    have : OscController.oscMessageReceived.body env msg address j s =
        ⟨s, [], some (.argIndexOutOfRange j)⟩ := by
      unfold OscController.oscMessageReceived.body
      simp [OSCMessage.get, hg]
    rw [this]; exact he
  | some a =>
    by_cases hf : s.FindControl
        (OscController.oscMessageReceived.calculatedAddress address j) = -1
    · rw [body_new env msg address j s a hg hf]
      cases a <;> simp only [] <;> rw [List.getElem?_append_left hklt] <;> exact he
    · obtain ⟨j0, e0, hj0, he0, hadr⟩ := FindControl_loop_found _ s.mOscMap 0 hf
      rw [Nat.zero_add] at hj0
      have hkj : j0 ≠ k := by
        intro heq
        subst heq
        rw [he0] at he
        cases he
        exact hne hadr
      rw [body_found env msg address j s a j0 e0 hg hj0 he0]
      cases a <;> cases hfl : e0.mIsFloat <;>
        simp only [hfl, Bool.false_eq_true, if_false, if_true] <;>
        rw [List.getElem?_set_ne hkj] <;> exact he

theorem loop_keep (env : Env) (msg : OSCMessage) (address : String) (is : List Nat) :
    ∀ (s : OscController) (calls : List ListenerCall) (k : Nat) (e : OscMap),
      s.mOscMap[k]? = some e →
      (∀ j ∈ is, e.mAddress ≠ OscController.oscMessageReceived.calculatedAddress address j) →
      (OscController.oscMessageReceived.loop env msg address is s calls).state.mOscMap[k]?
        = some e := by
  induction is with
  | nil => intro s calls k e he _; exact he
  | cons i rest ih =>
    intro s calls k e he hne
    have h1 := body_keep env msg address i s k e he (hne i (List.mem_cons_self _ _))
    simp only [OscController.oscMessageReceived.loop]
    split
    · exact h1
    · exact ih _ _ k e h1 (fun j hj => hne j (List.mem_cons_of_mem _ hj))

theorem loop_calls (env : Env) (msg : OSCMessage) (address : String) (is : List Nat) :
    ∀ (s : OscController) (calls : List ListenerCall),
      ∃ extra, (OscController.oscMessageReceived.loop env msg address is s calls).calls
        = calls ++ extra := by
  induction is with
  | nil => intro s calls; exact ⟨[], by simp [OscController.oscMessageReceived.loop]⟩
  | cons i rest ih =>
    intro s calls
    simp only [OscController.oscMessageReceived.loop]
    split
    · exact ⟨_, rfl⟩
    · obtain ⟨extra, hx⟩ := ih (OscController.oscMessageReceived.body env msg address i s).state
        (calls ++ (OscController.oscMessageReceived.body env msg address i s).calls)
      exact ⟨_, by rw [hx, List.append_assoc]⟩

theorem loop_append (env : Env) (msg : OSCMessage) (address : String) (l1 l2 : List Nat) :
    ∀ (s : OscController) (calls : List ListenerCall),
      (OscController.oscMessageReceived.loop env msg address l1 s calls).fault = none →
      OscController.oscMessageReceived.loop env msg address (l1 ++ l2) s calls =
        OscController.oscMessageReceived.loop env msg address l2
          (OscController.oscMessageReceived.loop env msg address l1 s calls).state
          (OscController.oscMessageReceived.loop env msg address l1 s calls).calls := by
  induction l1 with
  | nil => intro s calls _; rfl
  | cons i rest ih =>
    intro s calls hf
    rw [List.cons_append]
    simp only [OscController.oscMessageReceived.loop] at hf ⊢
    cases hb : (OscController.oscMessageReceived.body env msg address i s).fault with
    | some f => rw [hb] at hf; simp at hf
    | none =>
      rw [hb] at hf
      simp only [] at hf ⊢
      exact ih _ _ hf

theorem control_path_first (env : Env) (s : OscController) (address : String)
    (a0 : OSCArgument) (rest : List OSCArgument) (hsync : address ≠ "/jockey/sync")
    (hnote : OscController.oscMessageReceived.isNote address ⟨address, a0 :: rest⟩ = .ok false)
    (h0 : a0.isFloat32 = true ∨ a0.isInt32 = true) :
    OscController.oscMessageReceived env s ⟨address, a0 :: rest⟩ =
      OscController.oscMessageReceived.loop env ⟨address, a0 :: rest⟩ address
        (List.range (a0 :: rest).length) s [] := by
  have h1 : (!a0.isFloat32 && !a0.isInt32) = false := by
    rcases h0 with h | h <;> simp [h]
  unfold OscController.oscMessageReceived
  simp only [hsync, if_false, OSCMessage.size, List.length_cons, Nat.succ_ne_zero,
    OSCMessage.get, List.getElem?_cons_zero, h1, Bool.false_eq_true, hnote]

theorem roundUnits_exact (k : Int) (m : Nat) (hk : k.natAbs = m * 2 ^ 149)
    (hm : m < 2 ^ 24) : Float32.roundUnits k = k := by
  unfold Float32.roundUnits
  simp only []
  split
  · rfl
  · rename_i hl
    have hapos : 0 < k.natAbs := by
      rcases Nat.eq_zero_or_pos k.natAbs with h0 | h0
      · rw [h0, bitLength_zero] at hl; omega
      · exact h0
    obtain ⟨hlo, _⟩ := bitLength_spec k.natAbs k.natAbs (Nat.le_refl _) hapos
    have hlt : 2 ^ (Float32.bitLength k.natAbs k.natAbs - 1) < 2 ^ 173 := by
      calc 2 ^ (Float32.bitLength k.natAbs k.natAbs - 1) ≤ k.natAbs := hlo
        _ = m * 2 ^ 149 := hk
        _ < 2 ^ 24 * 2 ^ 149 := Nat.mul_lt_mul_of_pos_right hm (by positivity)
        _ = 2 ^ 173 := by rw [← Nat.pow_add]
    have hle : Float32.bitLength k.natAbs k.natAbs - 24 ≤ 149 := by
      have := (Nat.pow_lt_pow_iff_right (by norm_num : 1 < 2)).mp hlt
      omega
    have hdvd : 2 ^ (Float32.bitLength k.natAbs k.natAbs - 24) ∣ k.natAbs := by
      have hd := Dvd.dvd.mul_left (Nat.pow_dvd_pow 2 hle) m
      rw [← hk] at hd
      exact hd
    have hmod : k.natAbs % 2 ^ (Float32.bitLength k.natAbs k.natAbs - 24) = 0 :=
      Nat.mod_eq_zero_of_dvd hdvd
    have hdiv : k.natAbs / 2 ^ (Float32.bitLength k.natAbs k.natAbs - 24) *
        2 ^ (Float32.bitLength k.natAbs k.natAbs - 24) = k.natAbs :=
      Nat.div_mul_cancel hdvd
    have hq : 0 < 2 ^ (Float32.bitLength k.natAbs k.natAbs - 24) := by positivity
    have hcond : ¬ (2 ^ (Float32.bitLength k.natAbs k.natAbs - 24) < 2 * 0 ∨
        (2 * 0 = 2 ^ (Float32.bitLength k.natAbs k.natAbs - 24) ∧
          k.natAbs / 2 ^ (Float32.bitLength k.natAbs k.natAbs - 24) % 2 = 1)) := by
      rintro (h | ⟨h, _⟩) <;> omega
    rw [hmod, if_neg hcond, hdiv]
    split <;> omega

theorem ofInt_toRat (n : Int) (h : n.natAbs < 2 ^ 24) : (Float32.ofInt n).toRat = (n : ℚ) := by
  have hk : (n * ((2 ^ 149 : Nat) : Int)).natAbs = n.natAbs * 2 ^ 149 := by
    rw [Int.natAbs_mul]; rfl
  unfold Float32.ofInt Float32.toRat
  simp only [roundUnits_exact _ n.natAbs hk h]
  have h2 : (((n * ((2 ^ 149 : Nat) : Int) : Int)) : ℚ) = (n : ℚ) * 2 ^ 149 := by
    rw [Int.cast_mul, Int.cast_natCast, Nat.cast_pow, Nat.cast_ofNat]
  rw [h2]
  exact mul_div_cancel_right₀ _ (by positivity)

theorem control_routed (env : Env) (s : OscController) (address : String)
    (args : List OSCArgument) (i : Nat) (a : OSCArgument)
    (hsync : address ≠ "/jockey/sync")
    (hnote : OscController.oscMessageReceived.isNote address ⟨address, args⟩ = .ok false)
    (ha : args[i]? = some a)
    (htyped : ∀ (j : Nat) (b : OSCArgument), j ≤ i → args[j]? = some b →
      b.isFloat32 = true ∨ b.isInt32 = true)
    (hagree : ∀ (j : Nat) (b : OSCArgument), j ≤ i → args[j]? = some b → ∀ e ∈ s.mOscMap,
      e.mAddress = OscController.oscMessageReceived.calculatedAddress address j →
        e.mIsFloat = b.isFloat32) :
    RoutedTo env (OscController.oscMessageReceived env s ⟨address, args⟩).state.mOscMap
        (OscController.oscMessageReceived.calculatedAddress address i) a ∧
      (s.mListener ≠ none →
        (controlEvents (OscController.oscMessageReceived env s ⟨address, args⟩).calls)[i]? =
          some ⟨controlAt (OscController.oscMessageReceived env s ⟨address, args⟩).state.mOscMap
            (OscController.oscMessageReceived.calculatedAddress address i),
            "osccontroller", 1, controlValue a⟩) := by
  have hilt : i < args.length := by
    rcases Nat.lt_or_ge i args.length with h | h
    · exact h
    · rw [List.getElem?_eq_none h] at ha; cases ha
  cases args with
  | nil => simp at hilt
  | cons a0 rest =>
    have h0 := htyped 0 a0 (Nat.zero_le _) (by simp)
    rw [control_path_first env s address a0 rest hsync hnote h0]
    have hsplit : List.range (a0 :: rest).length =
        List.range (i + 1) ++ (List.range ((a0 :: rest).length - (i + 1))).map (i + 1 + ·) := by
      rw [← List.range_add]
      congr 1
      omega
    rw [hsplit]
    have hin : ∀ j ∈ List.range (i + 1), j ≤ i := by
      intro j hj
      have := List.mem_range.mp hj
      omega
    obtain ⟨hf1, hl1, hr1, _, extra1, hc1, he1⟩ :=
      loop_routed env ⟨address, a0 :: rest⟩ address (List.range (i + 1)) s []
        (List.nodup_range _)
        (fun j hj => by
          have hj2 : j < (a0 :: rest).length := by
            have := hin j hj
            omega
          exact ⟨(a0 :: rest)[j], List.getElem?_eq_getElem hj2,
            htyped j _ (hin j hj) (List.getElem?_eq_getElem hj2)⟩)
        (fun j hj b hb => hagree j b (hin j hj) hb)
    rw [loop_append env ⟨address, a0 :: rest⟩ address _ _ s [] hf1]
    have hext := loop_Extends env ⟨address, a0 :: rest⟩ address
      ((List.range ((a0 :: rest).length - (i + 1))).map (i + 1 + ·))
      (OscController.oscMessageReceived.loop env ⟨address, a0 :: rest⟩ address
        (List.range (i + 1)) s []).state
      (OscController.oscMessageReceived.loop env ⟨address, a0 :: rest⟩ address
        (List.range (i + 1)) s []).calls
    obtain ⟨idx, e, hfind, he, hadr, hst⟩ :=
      hr1 i (List.mem_range.mpr (Nat.lt_succ_self i)) a ha
    have hfound : OscController.FindControl.loop
        (OscController.oscMessageReceived.calculatedAddress address i)
        (OscController.oscMessageReceived.loop env ⟨address, a0 :: rest⟩ address
          (List.range (i + 1)) s []).state.mOscMap 0 ≠ -1 := by
      rw [hfind]; omega
    have hkeys : ∀ j ∈ (List.range ((a0 :: rest).length - (i + 1))).map (i + 1 + ·),
        e.mAddress ≠ OscController.oscMessageReceived.calculatedAddress address j := by
      intro j hj heq
      obtain ⟨x, _, hx⟩ := List.mem_map.mp hj
      have := calculatedAddress_injective address i j (hadr.symm.trans heq)
      omega
    have hkept := loop_keep env ⟨address, a0 :: rest⟩ address
      ((List.range ((a0 :: rest).length - (i + 1))).map (i + 1 + ·))
      (OscController.oscMessageReceived.loop env ⟨address, a0 :: rest⟩ address
        (List.range (i + 1)) s []).state
      (OscController.oscMessageReceived.loop env ⟨address, a0 :: rest⟩ address
        (List.range (i + 1)) s []).calls idx e he hkeys
    refine ⟨⟨idx, e, (FindControl_loop_Extends hext _ hfound).trans hfind, hkept, hadr, hst⟩, ?_⟩
    intro hl
    have hls : s.mListener.isSome = true := by
      cases hs : s.mListener with
      | none => exact absurd hs hl
      | some l => rfl
    obtain ⟨extra2, hc2⟩ := loop_calls env ⟨address, a0 :: rest⟩ address
      ((List.range ((a0 :: rest).length - (i + 1))).map (i + 1 + ·))
      (OscController.oscMessageReceived.loop env ⟨address, a0 :: rest⟩ address
        (List.range (i + 1)) s []).state
      (OscController.oscMessageReceived.loop env ⟨address, a0 :: rest⟩ address
        (List.range (i + 1)) s []).calls
    rw [List.nil_append] at hc1
    rw [controlAt_Extends hext _ hfound, hc2, controlEvents_append, hc1, he1, if_pos hls]
    rw [List.getElem?_append_left (by simp)]
    simp only [List.getElem?_map, List.getElem?_range (Nat.lt_succ_self i), Option.map_some']
    have hai : (OSCMessage.mk address (a0 :: rest)).args[i]? = some a := ha
    rw [hai]
    rfl

theorem body_no_listener (env : Env) (msg : OSCMessage) (address : String) (j : Nat)
    (s : OscController) (hl : s.mListener = none) :
    (OscController.oscMessageReceived.body env msg address j s).calls = [] ∧
      (OscController.oscMessageReceived.body env msg address j s).state.mListener = none := by
  cases hg : msg.args[j]? with
  | none =>
    have : OscController.oscMessageReceived.body env msg address j s =
        ⟨s, [], some (.argIndexOutOfRange j)⟩ := by
      unfold OscController.oscMessageReceived.body
      simp [OSCMessage.get, hg]
    rw [this]; exact ⟨rfl, hl⟩
  | some a =>
    by_cases hf : s.FindControl
        (OscController.oscMessageReceived.calculatedAddress address j) = -1
    · rw [body_new env msg address j s a hg hf]
      cases a <;> simp [hl]
    · obtain ⟨j0, e0, hj0, he0, _⟩ := FindControl_loop_found _ s.mOscMap 0 hf
      rw [Nat.zero_add] at hj0
      rw [body_found env msg address j s a j0 e0 hg hj0 he0]
      cases a <;> cases hfl : e0.mIsFloat <;> simp [hfl, hl]

theorem loop_no_listener (env : Env) (msg : OSCMessage) (address : String) (is : List Nat) :
    ∀ (s : OscController) (calls : List ListenerCall), s.mListener = none →
      (OscController.oscMessageReceived.loop env msg address is s calls).calls = calls := by
  induction is with
  | nil => intro s calls _; rfl
  | cons i rest ih =>
    intro s calls hl
    obtain ⟨hc, hl2⟩ := body_no_listener env msg address i s hl
    simp only [OscController.oscMessageReceived.loop]
    split
    · rw [hc, List.append_nil]
    · rw [ih _ _ hl2, hc, List.append_nil]

theorem sync_calls (env : Env) (s : OscController) (msg : OSCMessage) :
    (OscController.oscMessageReceived.sync env s msg).calls = [] := by
  unfold OscController.oscMessageReceived.sync
  split
  · rfl
  · split
    · rfl
    · split <;> rfl

theorem no_listener_no_calls (env : Env) (s : OscController) (msg : OSCMessage)
    (hl : s.mListener = none) : (OscController.oscMessageReceived env s msg).calls = [] := by
  unfold OscController.oscMessageReceived
  simp only []
  split
  · exact sync_calls env s msg
  · split
    · rfl
    · split
      · rfl
      · split
        · rfl
        · split
          · rfl
          · split
            · rfl
            · simp [hl]
          · exact loop_no_listener env msg msg.address _ s [] hl

set_option maxRecDepth 100000 in
/-- Counterexample to claim C11 as stated.  With no listener attached, the packet `/mixer`
with one float is routed to a new entry, but no control event is emitted for the argument.
And with a listener attached, the int argument 16777217 is stored as it is, but the float
value of the emitted event is 16777216. -/
theorem C11_counterexample :
    OscController.oscMessageReceived.isNote "/mixer"
        ⟨"/mixer", [.float32 (Float32.ofDyadic 1 1)]⟩ = .ok false ∧
      (OscController.oscMessageReceived exampleEnv (freshController none)
        ⟨"/mixer", [.float32 (Float32.ofDyadic 1 1)]⟩).state.mOscMap =
          [⟨0, "/mixer", true, Float32.ofDyadic 1 1, 0, ⟨0⟩⟩] ∧
      controlEvents (OscController.oscMessageReceived exampleEnv (freshController none)
        ⟨"/mixer", [.float32 (Float32.ofDyadic 1 1)]⟩).calls = [] ∧
      controlEvents (OscController.oscMessageReceived exampleEnv (freshController (some .plain))
        ⟨"/big", [.int32 16777217]⟩).calls =
          [⟨0, "osccontroller", 1, Float32.ofInt 16777217⟩] ∧
      (Float32.ofInt 16777217).toRat = 16777216 := by
  refine ⟨by rfl, by decide, by decide, by decide, ?_⟩
  have : (Float32.ofInt 16777217).units = ((16777216 * 2 ^ 149 : Nat) : Int) := by decide
  rw [Float32.toRat, this]
  norm_num

/-- Claim C11, amended: take a packet that is not for the sync address and whose note test
comes out false, and an argument index `i` such that the arguments up to `i` are float- or
int-typed and agree in kind with any entry already registered under their key.  Then argument
`i` is routed to the entry found under its key, listener or not: the entry's timestamp is the
clock reading; for a float `x` the entry is Float and stores `x`; for an int `n` the entry is
Integer and stores `n`.  With a listener attached, the `i`-th control event carries the
entry's id and channel 1, and as value the binary32 product `x × 127` when that product is a
finite binary32 value, or `n` converted to float, which is `n` itself when `|n| < 2^24`.  With
no listener attached no call is made at all.  When all arguments are so typed, the handler
runs without fault and, with a listener attached, emits exactly one control event per
argument. -/
theorem C11_control_scaling (env : Env) (s : OscController) (address : String)
    (args : List OSCArgument) (i : Nat) (a : OSCArgument)
    (hsync : address ≠ "/jockey/sync")
    (hnote : OscController.oscMessageReceived.isNote address ⟨address, args⟩ = .ok false)
    (ha : args[i]? = some a)
    (htyped : ∀ (j : Nat) (b : OSCArgument), j ≤ i → args[j]? = some b →
      b.isFloat32 = true ∨ b.isInt32 = true)
    (hagree : ∀ (j : Nat) (b : OSCArgument), j ≤ i → args[j]? = some b → ∀ e ∈ s.mOscMap,
      e.mAddress = OscController.oscMessageReceived.calculatedAddress address j →
        e.mIsFloat = b.isFloat32) :
    (∃ (idx : Nat) (e : OscMap),
      (OscController.oscMessageReceived env s ⟨address, args⟩).state.FindControl
        (OscController.oscMessageReceived.calculatedAddress address i) = (idx : Int) ∧
      (OscController.oscMessageReceived env s ⟨address, args⟩).state.mOscMap[idx]? = some e ∧
      e.mAddress = OscController.oscMessageReceived.calculatedAddress address i ∧
      e.mLastChangedTime = env.gTime ∧
      (∀ x : Float32, a = .float32 x →
        e.mIsFloat = true ∧ e.mFloatValue = x ∧
        (s.mListener ≠ none → (x.mulInt 127).isBinary32 = true →
          (controlEvents (OscController.oscMessageReceived env s ⟨address, args⟩).calls)[i]? =
            some ⟨e.mControl, "osccontroller", 1, x.mulInt 127⟩)) ∧
      (∀ n : Int, a = .int32 n →
        e.mIsFloat = false ∧ e.mIntValue = n ∧
        (s.mListener ≠ none →
          (controlEvents (OscController.oscMessageReceived env s ⟨address, args⟩).calls)[i]? =
            some ⟨e.mControl, "osccontroller", 1, Float32.ofInt n⟩) ∧
        (n.natAbs < 2 ^ 24 → (Float32.ofInt n).toRat = (n : ℚ)))) ∧
      (s.mListener = none →
        (OscController.oscMessageReceived env s ⟨address, args⟩).calls = []) ∧
      ((∀ (j : Nat) (b : OSCArgument), args[j]? = some b →
          b.isFloat32 = true ∨ b.isInt32 = true) →
        (∀ (j : Nat) (b : OSCArgument), args[j]? = some b → ∀ e ∈ s.mOscMap,
          e.mAddress = OscController.oscMessageReceived.calculatedAddress address j →
            e.mIsFloat = b.isFloat32) →
        (OscController.oscMessageReceived env s ⟨address, args⟩).fault = none ∧
        (s.mListener ≠ none →
          (controlEvents (OscController.oscMessageReceived env s ⟨address, args⟩).calls).length =
            args.length)) := by
  obtain ⟨⟨idx, e, hfind, he, hadr, hst⟩, hev⟩ :=
    control_routed env s address args i a hsync hnote ha htyped hagree
  rw [controlAt_of _ _ idx e hfind he] at hev
  refine ⟨⟨idx, e, hfind, he, hadr, hst.1, ?_, ?_⟩, no_listener_no_calls env s _, ?_⟩
  · intro x hx
    subst hx
    exact ⟨hst.2.1, hst.2.2, fun hl _ => hev hl⟩
  · intro n hn
    subst hn
    exact ⟨hst.2.1, hst.2.2, hev, ofInt_toRat n⟩
  · intro hta hag
    cases args with
    | nil => simp at ha
    | cons a0 rest =>
      rw [control_path_first env s address a0 rest hsync hnote (hta 0 a0 (by simp))]
      obtain ⟨hf, _, _, _, extra, hc, hi⟩ :=
        loop_routed env ⟨address, a0 :: rest⟩ address (List.range (a0 :: rest).length) s []
          (List.nodup_range _)
          (fun j hj => by
            have hj2 : j < (a0 :: rest).length := List.mem_range.mp hj
            exact ⟨(a0 :: rest)[j], List.getElem?_eq_getElem hj2,
              hta j _ (List.getElem?_eq_getElem hj2)⟩)
          (fun j _ b hb => hag j b hb)
      refine ⟨hf, ?_⟩
      intro hl
      have hls : s.mListener.isSome = true := by
        cases hs : s.mListener with
        | none => exact absurd hs hl
        | some l => rfl
      rw [List.nil_append] at hc
      rw [hc, hi, if_pos hls]
      simp

set_option maxRecDepth 100000 in
/-- Witness for C11: a fresh controller with a listener handles `/mixer` with the floats 0.5,
0.25 and 0.75; argument 1 is routed to the entry `/mixer 2`, which stores 0.25, and control
event 1 carries that entry's id, channel 1 and the product of 0.25 and 127, a finite binary32
value. -/
theorem C11_control_scaling_witness :
    ((Float32.ofDyadic 1 2).mulInt 127).isBinary32 = true ∧
    ∃ (idx : Nat) (e : OscMap),
      (OscController.oscMessageReceived exampleEnv (freshController (some .plain))
        ⟨"/mixer", mixerPacket.args⟩).state.mOscMap[idx]? = some e ∧
      e.mAddress = "/mixer 2" ∧ e.mFloatValue = Float32.ofDyadic 1 2 ∧
      (controlEvents (OscController.oscMessageReceived exampleEnv
        (freshController (some .plain)) ⟨"/mixer", mixerPacket.args⟩).calls)[1]? =
          some ⟨e.mControl, "osccontroller", 1, (Float32.ofDyadic 1 2).mulInt 127⟩ := by
  have hfloats : ∀ b ∈ mixerPacket.args, b.isFloat32 = true := by decide
  have hfin : ((Float32.ofDyadic 1 2).mulInt 127).isBinary32 = true := by decide
  obtain ⟨⟨idx, e, _, he, hadr, _, hfl, _⟩, _, _⟩ :=
    C11_control_scaling exampleEnv (freshController (some .plain)) "/mixer" mixerPacket.args 1
      (.float32 (Float32.ofDyadic 1 2)) (by decide) (by rfl) (by rfl)
      (fun j b _ hb => Or.inl (hfloats b (List.getElem?_mem hb)))
      (fun _ _ _ _ e he => by simp [freshController] at he)
  exact ⟨hfin, idx, e, he, hadr.trans (by decide), (hfl _ rfl).2.1,
    (hfl _ rfl).2.2 (by decide) hfin⟩

/-! ## Faults of the handler -/

theorem body_fault (env : Env) (msg : OSCMessage) (address : String) (j : Nat)
    (s : OscController) (a : OSCArgument) (f : Fault) (hg : msg.args[j]? = some a)
    (h : (OscController.oscMessageReceived.body env msg address j s).fault = some f) :
    f = .assertFailed := by
  by_cases hf : s.FindControl
      (OscController.oscMessageReceived.calculatedAddress address j) = -1
  · rw [body_new env msg address j s a hg hf] at h
    cases a <;> simp at h
    all_goals exact h.symm
  · obtain ⟨j0, e0, hj0, he0, _⟩ := FindControl_loop_found _ s.mOscMap 0 hf
    rw [Nat.zero_add] at hj0
    rw [body_found env msg address j s a j0 e0 hg hj0 he0] at h
    cases a <;> cases hfl : e0.mIsFloat <;> simp [hfl] at h
    all_goals exact h.symm

theorem loop_fault (env : Env) (msg : OSCMessage) (address : String) (is : List Nat) :
    ∀ (s : OscController) (calls : List ListenerCall) (f : Fault),
      (∀ j ∈ is, j < msg.args.length) →
      (OscController.oscMessageReceived.loop env msg address is s calls).fault = some f →
      f = .assertFailed := by
  induction is with
  | nil => intro s calls f _ h; simp [OscController.oscMessageReceived.loop] at h
  | cons i rest ih =>
    intro s calls f hin h
    have hi : i < msg.args.length := hin i (List.mem_cons_self _ _)
    simp only [OscController.oscMessageReceived.loop] at h
    split at h
    · rename_i f2 hb
      simp only [Option.some.injEq] at h
      subst h
      exact body_fault env msg address i s msg.args[i] f2 (List.getElem?_eq_getElem hi) hb
    · exact ih _ _ f (fun j hj => hin j (List.mem_cons_of_mem _ hj)) h

theorem isNote_error (address : String) (msg : OSCMessage) (f : Fault)
    (h : OscController.oscMessageReceived.isNote address msg = .error f) :
    f = .argIndexOutOfRange 2 ∧ msg.args.length = 2 := by
  obtain ⟨ad, args⟩ := msg
  unfold OscController.oscMessageReceived.isNote at h
  split at h
  · cases h
  · split at h
    · cases h
    · rcases args with _ | ⟨a0, _ | ⟨a1, _ | ⟨a2, rest⟩⟩⟩
      · simp [OSCMessage.size] at *
      · simp [OSCMessage.size] at *
      · cases a0 <;> cases a1 <;>
          simp [OSCMessage.get, OSCArgument.isFloat32, OSCArgument.isInt32, bind, Except.bind,
            pure, Except.pure] at h ⊢
        all_goals exact h.symm
      · cases a0 <;> cases a1 <;> cases a2 <;>
          simp [OSCMessage.get, OSCArgument.isFloat32, OSCArgument.isInt32, bind, Except.bind,
            pure, Except.pure] at h

theorem isNote_true (msg : OSCMessage)
    (h : OscController.oscMessageReceived.isNote msg.address msg = .ok true) :
    ∃ (channel : Int) (pitch v : Float32), NoteShape msg channel pitch v := by
  obtain ⟨ad, args⟩ := msg
  unfold OscController.oscMessageReceived.isNote at h
  split at h
  · cases h
  · rename_i hpre
    have hpre2 : "/note".data <+: ad.data := by
      by_contra hc; exact hpre hc
    split at h
    · cases h
    · rcases args with _ | ⟨a0, _ | ⟨a1, _ | ⟨a2, rest⟩⟩⟩
      · simp [OSCMessage.size] at *
      · simp [OSCMessage.size] at *
      · cases a0 <;> cases a1 <;>
          simp [OSCMessage.get, OSCArgument.isFloat32, OSCArgument.isInt32, bind, Except.bind,
            pure, Except.pure] at h
        exact ⟨_, _, _, hpre2, Or.inl ⟨rfl, _, rfl⟩⟩
      · cases a0 <;> cases a1 <;> cases a2 <;>
          simp [OSCMessage.get, OSCArgument.isFloat32, OSCArgument.isInt32, bind, Except.bind,
            pure, Except.pure] at h
        all_goals first
          | exact ⟨_, _, _, hpre2, Or.inl ⟨rfl, _, rfl⟩⟩
          | exact ⟨_, _, _, hpre2, Or.inr ⟨_, rfl⟩⟩

theorem get_zero_ok (msg : OSCMessage) (hz : ¬ msg.size = 0) : ∃ a0, msg.get 0 = .ok a0 := by
  obtain ⟨ad, args⟩ := msg
  cases args with
  | nil => exact absurd rfl hz
  | cons a rest => exact ⟨a, by simp [OSCMessage.get]⟩

theorem oscMessageReceived_fault (env : Env) (s : OscController) (msg : OSCMessage)
    (f : Fault) (h : (OscController.oscMessageReceived env s msg).fault = some f) :
    (f = .argIndexOutOfRange 0 ∧ msg.address = "/jockey/sync" ∧ msg.args = []) ∨
      (f = .argIndexOutOfRange 2 ∧ msg.args.length = 2) ∨
      (f = .wrongArgType ∧ msg.address = "/jockey/sync") ∨
      f = .assertFailed := by
  by_cases hs : msg.address = "/jockey/sync"
  · unfold OscController.oscMessageReceived at h
    simp only [hs, if_true] at h
    obtain ⟨ad, args⟩ := msg
    unfold OscController.oscMessageReceived.sync at h
    cases args with
    | nil =>
      simp [OSCMessage.get] at h
      exact Or.inl ⟨h.symm, hs, rfl⟩
    | cons a rest =>
      cases a with
      | string str =>
        simp only [OSCMessage.get, List.getElem?_cons_zero, OSCArgument.getString] at h
        split at h <;> simp at h
      | int32 n =>
        simp [OSCMessage.get, OSCArgument.getString] at h
        exact Or.inr (Or.inr (Or.inl ⟨h.symm, hs⟩))
      | float32 x =>
        simp [OSCMessage.get, OSCArgument.getString] at h
        exact Or.inr (Or.inr (Or.inl ⟨h.symm, hs⟩))
      | blob =>
        simp [OSCMessage.get, OSCArgument.getString] at h
        exact Or.inr (Or.inr (Or.inl ⟨h.symm, hs⟩))
  · cases hn : OscController.oscMessageReceived.isNote msg.address msg with
    | error f2 =>
      have hf2 := isNote_error msg.address msg f2 hn
      have hz : ¬ msg.size = 0 := by
        unfold OSCMessage.size; omega
      obtain ⟨a0, h0⟩ := get_zero_ok msg hz
      unfold OscController.oscMessageReceived at h
      simp only [hs, if_false, hz, hn, h0] at h
      split at h
      · simp at h
      · simp only [Option.some.injEq] at h
        subst h
        exact Or.inr (Or.inl hf2)
    | ok b =>
      cases b with
      | true =>
        obtain ⟨channel, pitch, v, hshape⟩ := isNote_true msg hn
        rw [note_outcome env s msg channel pitch v hshape] at h
        simp at h
      | false =>
        by_cases hz : msg.size = 0
        · unfold OscController.oscMessageReceived at h
          simp [hs, hz] at h
        · obtain ⟨a0, h0⟩ := get_zero_ok msg hz
          unfold OscController.oscMessageReceived at h
          simp only [hs, if_false, hz, hn, h0] at h
          split at h
          · simp at h
          · refine Or.inr (Or.inr (Or.inr ?_))
            exact loop_fault env msg msg.address (List.range msg.size) s [] f
              (fun j hj => List.mem_range.mp hj) h


end Bespoke
